import Mathlib

/-!
Verification of the db2gpkg export engine (`src/export_engine.py`, `src/db_utils.py`)
against its natural-language specification.

The Python code is shallowly embedded: pure helpers become Lean functions on
`String`/`List Char`, the background export worker (`ExportWorker.run`) becomes a
state machine threading an explicit state record and recording notification and
side-effect traces, and external collaborators (the single-table writer, the
filesystem, the XML parser/serializer, zip/zlib/utf-8 decoders, the database)
become environment records of opaque functions.  The cooperative cancellation
flag is modelled by the index of the flag read from which the flag is observed
set (`Option Nat`): every read of `self._cancelled` consumes one read index, and
a monotone boolean stream is exactly of this form.
-/

/-! ## Python string primitives

`str.strip` / `str.lower` / substring and suffix tests, modelled on the
character list underlying a `String` (ASCII case folding, ASCII whitespace). -/

/-- Models Python `str.strip()` (whitespace stripped from both ends). -/
def pyStrip (s : String) : String :=
  ⟨((s.data.dropWhile Char.isWhitespace).reverse.dropWhile Char.isWhitespace).reverse⟩

/-- Models Python `str.lower()` (ASCII case folding). -/
def pyLower (s : String) : String := ⟨s.data.map Char.toLower⟩

/-- Substring occurrence on character lists. -/
def listInfix (pat : List Char) : List Char → Bool
  | [] => pat.isEmpty
  | c :: rest => pat.isPrefixOf (c :: rest) || listInfix pat rest

/-- Models Python `needle in hay` substring test. -/
def strContains (needle hay : String) : Bool := listInfix needle.data hay.data

/-- Models Python `s.endswith(suffix)`. -/
def strEndsWith (s suffix : String) : Bool := suffix.data.isSuffixOf s.data

/-- Models Python `os.path.join(a, b)` for a nonempty base and a relative
second component (the only shapes the engine produces). -/
def joinPath (a b : String) : String := a ++ "/" ++ b

/-! ## `db_utils.normalize_sslmode` (src/db_utils.py lines 74-86) -/

/-- The `mapping` dict literal of `normalize_sslmode`. -/
def sslmodeMapping : List (String × String) :=
  [("SslPrefer", "prefer"), ("SslDisable", "disable"), ("SslAllow", "allow"),
   ("SslRequire", "require"), ("SslVerifyCa", "verify-ca"), ("SslVerifyFull", "verify-full"),
   ("0", "prefer"), ("1", "disable"), ("2", "allow"),
   ("3", "require"), ("4", "verify-ca"), ("5", "verify-full")]

/-- The `valid` tuple of `normalize_sslmode`. -/
def validSslmodes : List String :=
  ["prefer", "disable", "allow", "require", "verify-ca", "verify-full"]

/-- Embedding of `db_utils.normalize_sslmode`.  The Python function first applies `str(value)`;
the embedding takes the resulting string (`none` models `value is None`). -/
def normalize_sslmode (value : Option String) : String :=
  match value with
  | none => "prefer"
  | some v =>
    let s := pyStrip v
    match sslmodeMapping.lookup s with
    | some m => m
    | none => if validSslmodes.contains (pyLower s) then pyLower s else "prefer"

/-! ## Project-name extension normalization (src/export_engine.py lines 367-371) -/

/-- The filename normalization applied to each project name in
`ExportWorker.run`: `.qgz` (case-insensitively) is replaced by `.qgs`, an
existing `.qgs` is kept, anything else gets `.qgs` appended. -/
def normalizeProjName (pn : String) : String :=
  if ".qgz".data.isSuffixOf (pyLower pn).data then ⟨pn.data.take (pn.data.length - 4)⟩ ++ ".qgs"
  else if ".qgs".data.isSuffixOf (pyLower pn).data then pn
  else pn ++ ".qgs"

/-! ## Regex-based datasource parsing (src/export_engine.py lines 143-173)

The patterns used by `rewrite_qgis_project_datasources` are literal markers
followed by simple captures, so `re.search` is modelled exactly: scan for the
leftmost occurrence of the literal marker whose continuation succeeds. -/

/-- Leftmost occurrence of the literal `marker` at which the continuation
`cont` (the rest of the pattern, applied to the text after the marker)
succeeds.  This is `re.search` for patterns of the form `marker ++ rest`. -/
def searchPat {α : Type} (marker : List Char) (cont : List Char → Option α) :
    List Char → Option α
  | [] => none
  | c :: rest =>
    match (if marker.isPrefixOf (c :: rest) then cont (List.drop marker.length (c :: rest)) else none) with
    | some r => some r
    | none => searchPat marker cont rest

/-- Capture `([^q]*)q`: the run of characters before the next `q`, failing if
`q` never occurs. -/
def captureTo (q : Char) (l : List Char) : Option (List Char) :=
  if l.contains q then some (l.takeWhile (fun c => c ≠ q)) else none

/-- Capture `(\S+)`: a nonempty maximal run of non-whitespace characters. -/
def captureWord (l : List Char) : Option (List Char) :=
  let w := l.takeWhile (fun c => ¬ c.isWhitespace)
  if w.isEmpty then none else some w

/-- The schema patterns `schema='([^']*)'`, `schema="([^"]*)"`, `schema=(\S+)`,
tried in order (first match wins), as in lines 145-149. -/
def extractSchema (ds : List Char) : Option (List Char) :=
  match searchPat ("schema='".data) (captureTo '\'') ds with
  | some r => some r
  | none =>
    match searchPat ("schema=\"".data) (captureTo '"') ds with
    | some r => some r
    | none => searchPat ("schema=".data) captureWord ds

/-- Continuation of pattern `table="([^"]*)"[.\s]*"([^"]*)"` after the literal
`table="`: since `"` is neither `.` nor whitespace, the greedy `[.\s]*` run is
forced and must be followed by `"`. -/
def tableContDq (l : List Char) : Option (List Char × List Char) :=
  match captureTo '"' l with
  | none => none
  | some g1 =>
    let l2 := (l.drop (g1.length + 1)).dropWhile (fun c => c = '.' ∨ c.isWhitespace)
    match l2 with
    | '"' :: l3 =>
      match captureTo '"' l3 with
      | none => none
      | some g2 => some (g1, g2)
    | _ => none

/-- Continuation of pattern `table='([^']*)'\.'([^']*)'` after the literal
`table='`. -/
def tableContSq (l : List Char) : Option (List Char × List Char) :=
  match captureTo '\'' l with
  | none => none
  | some g1 =>
    match l.drop (g1.length + 1) with
    | '.' :: '\'' :: l3 =>
      match captureTo '\'' l3 with
      | none => none
      | some g2 => some (g1, g2)
    | _ => none

/-- The four table patterns of lines 153-158 in order.  A two-group match
returns `(some schemaPart, table)`; a one-group match returns `(none, table)`. -/
def extractTable (ds : List Char) : Option (Option (List Char) × List Char) :=
  match searchPat ("table=\"".data) tableContDq ds with
  | some (g1, g2) => some (some g1, g2)
  | none =>
    match searchPat ("table='".data) tableContSq ds with
    | some (g1, g2) => some (some g1, g2)
    | none =>
      match searchPat ("table=\"".data) (captureTo '"') ds with
      | some g => some (none, g)
      | none =>
        match searchPat ("table='".data) (captureTo '\'') ds with
        | some g => some (none, g)
        | none => none

/-- Python truthiness of an optional captured string (`None` and `""` are falsy). -/
def optTruthy (o : Option (List Char)) : Bool :=
  match o with
  | none => false
  | some l => !l.isEmpty

/-- Schema/table extraction of lines 143-173: extract the schema, extract the
table (a two-group table match supplies the schema only when none was found),
and skip (`none`) when either is missing or empty. -/
def parseDatasource (ds : String) : Option (String × String) :=
  let schema0 := extractSchema ds.data
  match extractTable ds.data with
  | none => none
  | some (fb, tb) =>
    let schema1 :=
      match fb with
      | some g1 => if optTruthy schema0 then schema0 else some g1
      | none => schema0
    if optTruthy schema1 ∧ !tb.isEmpty then
      match schema1 with
      | some s => some (⟨s⟩, ⟨tb⟩)
      | none => none
    else none

/-! ## The datasource rewriter (src/export_engine.py lines 108-220)

A well-formed parsed project document is modelled as the parts of the element
tree the function inspects: the list of `maplayer` elements (each with its
`provider` / `datasource` children and an opaque remainder), the
`projectstorage` elements, the root tag data and the `homePath` elements.
`ET.fromstring` / `ET.tostring` are opaque environment functions. -/

/-- A `maplayer` element.  `provider`/`datasource`: `none` models a missing
child element, `some none` a child whose `.text is None`, `some (some s)` a
child with text `s`.  `rest` is the opaque serialized remainder of the
element (attributes and other children), untouched by the rewriter. -/
structure Maplayer where
  provider : Option (Option String)
  datasource : Option (Option String)
  rest : String
deriving DecidableEq, Repr

/-- Per-layer outcome, mirroring the `continue` paths of the loop. -/
inductive LayerOutcome where
  | untouched
  | skippedL
  | rewrittenL
deriving DecidableEq, Repr

/-- The assignment resolution of lines 175-190: an exact `(schema, table)`
entry in `table_gpkg_map` takes precedence (and keeps the bare table name as
layer name); otherwise a `schema_gpkg_map` entry is used, applying
`layer_prefix_map[schema]` to the layer name when present; a falsy (empty)
resolved path is treated as no assignment (`if not gpkg_path`). -/
def resolveAssign (sm : List (String × String)) (tm : List ((String × String) × String))
    (pm : Option (List (String × String))) (s t : String) : Option (String × String) :=
  match tm.lookup (s, t) with
  | some p => if p = "" then none else some (p, t)
  | none =>
    match sm.lookup s with
    | some p =>
      let name :=
        match (pm.getD []).lookup s with
        | some pre => pre ++ t
        | none => t
      if p = "" then none else some (p, name)
    | none => none

/-- The per-`maplayer` body of the rewrite loop (lines 131-198). -/
def rewriteLayer (sm : List (String × String)) (tm : List ((String × String) × String))
    (pm : Option (List (String × String))) (ml : Maplayer) : Maplayer × LayerOutcome :=
  match ml.provider, ml.datasource with
  | some provText, some (some dsText) =>
    if provText = some "postgres" ∨ strContains "dbname=" dsText ∨ strContains "service=" dsText then
      match parseDatasource dsText with
      | none => (ml, LayerOutcome.skippedL)
      | some (s, t) =>
        match resolveAssign sm tm pm s t with
        | none => (ml, LayerOutcome.skippedL)
        | some (p, name) =>
          ({ ml with
             datasource := some (some (p ++ "|layername=" ++ name)),
             provider := some (some "ogr") }, LayerOutcome.rewrittenL)
    else (ml, LayerOutcome.untouched)
  | _, _ => (ml, LayerOutcome.untouched)

/-- The parts of a parsed project document the rewriter touches. -/
structure QgsDoc where
  layers : List Maplayer
  storageElems : Nat
  rootIsQgis : Bool
  projectnameAttr : Option String
  homePaths : List String
deriving DecidableEq, Repr

/-- The metadata cleanup of lines 203-218: remove every `projectstorage`
element, `setdefault` an empty `projectname` attribute on a `qgis` root, and
blank `homePath` paths still referencing the database. -/
def cleanupDoc (d : QgsDoc) : QgsDoc :=
  { d with
    storageElems := 0,
    projectnameAttr := if d.rootIsQgis then some (d.projectnameAttr.getD "") else d.projectnameAttr,
    homePaths := d.homePaths.map (fun p =>
      if strContains "postgresql" (pyLower p) ∨ strContains "dbname=" (pyLower p) then "" else p) }

/-- The rewrite pass over the layer list. -/
def rewriteDoc (sm : List (String × String)) (tm : List ((String × String) × String))
    (pm : Option (List (String × String))) (d : QgsDoc) : QgsDoc :=
  { d with layers := d.layers.map (fun ml => (rewriteLayer sm tm pm ml).1) }

/-- Embedding of `rewrite_qgis_project_datasources`: parse (returning the input unchanged on
parse failure, lines 119-123), rewrite each layer, clean up metadata, and
serialize.  `parseDoc`/`serializeDoc` model `ET.fromstring`/`ET.tostring`. -/
def rewrite_qgis_project_datasources (parseDoc : String → Option QgsDoc)
    (serializeDoc : QgsDoc → String) (xml : String) (sm : List (String × String))
    (tm : List ((String × String) × String)) (pm : Option (List (String × String))) : String :=
  match parseDoc xml with
  | none => xml
  | some root => serializeDoc (cleanupDoc (rewriteDoc sm tm pm root))

/-! ## The embedded-document extractor (src/db_utils.py lines 219-274)

Payloads are byte lists; the zip container, zlib inflate and utf-8 decode are
opaque environment functions returning `none` on any raised error. -/

/-- A zip member together with the result of reading and utf-8-decoding it
(`none` models a read or decode error). -/
structure ZEntry where
  name : String
  text : Option String
deriving DecidableEq, Repr

/-- External decoders used by `_extract_qgs_xml`. -/
structure XEnv where
  unzip : List Nat → Option (List ZEntry)
  zlibDec : List Nat → Option String
  utf8Dec : List Nat → Option String

/-- Embedding of `_is_qgs` (lines 230-232). -/
def isQgsText (t : String) : Bool :=
  "<?xml".data.isPrefixOf (pyStrip t).data || "<qgis".data.isPrefixOf (pyStrip t).data

/-- The local-file-archive signature `PK\x03\x04`. -/
def zipSignature : List Nat := [0x50, 0x4B, 0x03, 0x04]

/-- Embedding of `_extract_qgs_xml` on a bytes payload: try the zip container when the
signature matches (preferring a member named `*.qgs`, else the first member),
then zlib when the first byte is `\x78`, then plain utf-8, then zlib once
more; each attempt is kept only if `_is_qgs` accepts the text. -/
def extract_qgs_xml (env : XEnv) (raw : List Nat) : Option String :=
  let zipTry : Option String :=
    if raw.take 4 = zipSignature then
      match env.unzip raw with
      | none => none
      | some entries =>
        let qgs := entries.filter (fun e => ".qgs".data.isSuffixOf (pyLower e.name).data)
        match qgs.head?.orElse (fun _ => entries.head?) with
        | none => none
        | some e =>
          match e.text with
          | none => none
          | some t => if isQgsText t then some t else none
    else none
  let zlibTry : Option String :=
    if raw.take 1 = [0x78] then
      match env.zlibDec raw with
      | none => none
      | some t => if isQgsText t then some t else none
    else none
  let utf8Try : Option String :=
    match env.utf8Dec raw with
    | none => none
    | some t => if isQgsText t then some t else none
  let lastTry : Option String :=
    match env.zlibDec raw with
    | none => none
    | some t => if isQgsText t then some t else none
  (zipTry.orElse (fun _ => zlibTry)).orElse (fun _ => utf8Try.orElse (fun _ => lastTry))

/-! ## The export worker (src/export_engine.py lines 227-412)

`ExportWorker.run` is embedded as a state machine.  The state records the
Python locals (`errors`, `ok_count`, `gpkg_count`, the path maps, `step`), the
notification trace (`progress_updated` / `export_finished` emissions), the
side-effect trace (file deletions, directory creation, calls to the external
single-table writer `export_table_to_gpkg`, project file writes) and the
number of reads of the cooperative flag `self._cancelled` performed so far.

All three mode loops share the control skeleton
`if self._cancelled: break` / `step += 1` / `progress_updated.emit(...)`
(lines 263-276, 300-309, 328-339), so the loops are factored through one
generic traversal parameterized by the mode-specific per-schema prelude and
per-table body. -/

/-- One selected relation (`table_info` dict); only the `table` key is read by
the orchestrator itself, the rest is passed opaquely to the writer. -/
structure TableInfo where
  table : String
deriving DecidableEq, Repr

/-- A notification: `progress_updated.emit(step, total, label)` or
`export_finished.emit(results)`. -/
structure ExportResult where
  okCount : Nat
  errors : List String
  gpkgCount : Nat
  exportedProjects : List String
  mode : Nat
  total : Nat
  cancelled : Bool
deriving DecidableEq, Repr

inductive Event where
  | progress (step total : Nat) (label : String)
  | finished (res : ExportResult)
deriving DecidableEq, Repr

/-- A side effect of the run: `os.remove`, `os.makedirs`, a call to the
external writer `export_table_to_gpkg(conn, schema, t, path, layername)`, or a
project file write. -/
inductive FsAction where
  | deleteFile (path : String)
  | mkdirP (path : String)
  | exportCall (schema table path : String) (layerName : Option String)
  | writeFile (path content : String)
deriving DecidableEq, Repr

/-- A project row returned by `get_qgis_projects_in_db`. -/
structure Project where
  name : String
  xmlContent : String
deriving DecidableEq, Repr

/-- External collaborators of the worker: the single-table writer (returning
Python's `(ok, msg)`), the filesystem existence tests (before the run and at
summary time), the database connection for the projects phase (`none` models a
raised connection error, `some ps` the project rows), project-file write
success, and the XML parser/serializer used by the rewriter. -/
structure Env where
  exportOk : String → String → String → Option String → Bool × String
  preExists : String → Bool
  existsAfter : String → Bool
  projectsConn : Option (List Project)
  writeOk : String → Bool
  parseDoc : String → Option QgsDoc
  serializeDoc : QgsDoc → String

/-- The worker state. -/
structure WState where
  errors : List String := []
  okCount : Nat := 0
  gpkgCount : Nat := 0
  schemaGpkgMap : List (String × String) := []
  tableGpkgMap : List ((String × String) × String) := []
  layerPrefixMap : Option (List (String × String)) := none
  exportedProjects : List String := []
  step : Nat := 0
  reads : Nat := 0
  events : List Event := []
  actions : List FsAction := []
deriving Repr

/-- The cancellation flag as observed by the `i`-th read of `self._cancelled`:
`some c` means `request_cancel` takes effect between the `c`-th and the
`(c+1)`-th read, so reads with index `≥ c` observe `True`.  Every monotone
boolean read sequence has this form. -/
def flagOf (cancel : Option Nat) (i : Nat) : Bool :=
  match cancel with
  | none => false
  | some c => decide (c ≤ i)

/-- The generic per-schema table loop: flag check, step increment, progress
emission (lines 271-276 = 304-309 = 334-339), then the mode-specific body. -/
def runRelTables (cancel : Option Nat) (total : Nat)
    (tableBody : String → TableInfo → WState → WState) (schema : String) :
    List TableInfo → WState → WState
  | [], st => st
  | t :: ts, st =>
    let c := flagOf cancel st.reads
    let st1 : WState := { st with reads := st.reads + 1 }
    if c then st1
    else
      let st2 : WState := { st1 with
        step := st1.step + 1,
        events := st1.events ++ [Event.progress (st1.step + 1) total (schema ++ "." ++ t.table)] }
      runRelTables cancel total tableBody schema ts (tableBody schema t st2)

/-- The generic schema loop (lines 263-264 = 300-301 = 328-329): flag check,
mode-specific per-schema prelude, then the table loop. -/
def runRelSchemas (cancel : Option Nat) (total : Nat)
    (schemaInit : String → WState → WState)
    (tableBody : String → TableInfo → WState → WState) :
    List (String × List TableInfo) → WState → WState
  | [], st => st
  | (schema, tables) :: rest, st =>
    let c := flagOf cancel st.reads
    let st1 : WState := { st with reads := st.reads + 1 }
    if c then st1
    else
      runRelSchemas cancel total schemaInit tableBody rest
        (runRelTables cancel total tableBody schema tables (schemaInit schema st1))

/-- Mode 0 per-schema prelude (lines 266-269): compute `<schema>.gpkg`, record
it in `schema_gpkg_map`, delete a pre-existing file. -/
def mode0SchemaInit (env : Env) (outputDir : String) (schema : String) (st : WState) : WState :=
  let gp := joinPath outputDir (schema ++ ".gpkg")
  let st1 : WState := { st with schemaGpkgMap := st.schemaGpkgMap ++ [(schema, gp)] }
  if env.preExists gp then { st1 with actions := st1.actions ++ [FsAction.deleteFile gp] } else st1

/-- Mode 0 per-table body (lines 278-286): call the writer, count success or
record the failure message. -/
def mode0Body (env : Env) (outputDir : String) (schema : String) (t : TableInfo)
    (st : WState) : WState :=
  let gp := joinPath outputDir (schema ++ ".gpkg")
  let r := env.exportOk schema t.table gp none
  let st1 : WState := { st with actions := st.actions ++ [FsAction.exportCall schema t.table gp none] }
  if r.1 then { st1 with okCount := st1.okCount + 1 }
  else { st1 with errors := st1.errors ++ [r.2] }

/-- Mode 1 per-schema prelude (line 303): map the schema to the single path. -/
def mode1SchemaInit (singlePath : String) (schema : String) (st : WState) : WState :=
  { st with schemaGpkgMap := st.schemaGpkgMap ++ [(schema, singlePath)] }

/-- Mode 1 per-table body (lines 311-321): layer name prefixed
`<schema>__<table>` exactly when more than one schema is selected. -/
def mode1Body (env : Env) (singlePath : String) (multi : Bool) (schema : String)
    (t : TableInfo) (st : WState) : WState :=
  let override := if multi then schema ++ "__" ++ t.table else t.table
  let r := env.exportOk schema t.table singlePath (some override)
  let st1 : WState := { st with
    actions := st.actions ++ [FsAction.exportCall schema t.table singlePath (some override)] }
  if r.1 then { st1 with okCount := st1.okCount + 1 }
  else { st1 with errors := st1.errors ++ [r.2] }

/-- Mode 2 per-schema prelude (lines 331-332): create the schema directory. -/
def mode2SchemaInit (outputDir : String) (schema : String) (st : WState) : WState :=
  { st with actions := st.actions ++ [FsAction.mkdirP (joinPath outputDir schema)] }

/-- Mode 2 per-table body (lines 341-355): per-table path, delete a
pre-existing file, call the writer; on success also count the container and
record the `(schema, table) → path` assignment. -/
def mode2Body (env : Env) (outputDir : String) (schema : String) (t : TableInfo)
    (st : WState) : WState :=
  let gp := joinPath (joinPath outputDir schema) (t.table ++ ".gpkg")
  let st1 : WState :=
    if env.preExists gp then { st with actions := st.actions ++ [FsAction.deleteFile gp] } else st
  let r := env.exportOk schema t.table gp none
  let st2 : WState := { st1 with actions := st1.actions ++ [FsAction.exportCall schema t.table gp none] }
  if r.1 then
    { st2 with
      okCount := st2.okCount + 1,
      gpkgCount := st2.gpkgCount + 1,
      tableGpkgMap := st2.tableGpkgMap ++ [((schema, t.table), gp)] }
  else { st2 with errors := st2.errors ++ [r.2] }

/-- The projects loop (lines 364-391): per project a flag check, filename
normalization, a progress emission with the frozen `step`, the rewrite, and the
file write (a raised write error is recorded and processing continues). -/
def runProjects (env : Env) (cancel : Option Nat) (total : Nat) (outputDir : String)
    (mode : Nat) : List Project → WState → WState
  | [], st => st
  | p :: ps, st =>
    let c := flagOf cancel st.reads
    let st1 : WState := { st with reads := st.reads + 1 }
    if c then st1
    else
      let pn := normalizeProjName p.name
      let st2 : WState := { st1 with
        events := st1.events ++ [Event.progress st1.step total ("Project: " ++ pn)] }
      let xml := rewrite_qgis_project_datasources env.parseDoc env.serializeDoc p.xmlContent
        (if mode ≠ 2 then st2.schemaGpkgMap else [])
        (if mode = 2 then st2.tableGpkgMap else [])
        st2.layerPrefixMap
      let pp := joinPath outputDir pn
      let st3 : WState :=
        if env.writeOk pp then
          { st2 with
            actions := st2.actions ++ [FsAction.writeFile pp xml],
            exportedProjects := st2.exportedProjects ++ [pn] }
        else { st2 with errors := st2.errors ++ ["Project " ++ pn ++ ": write error"] }
      runProjects env cancel total outputDir mode ps st3

/-- Total number of selected relations (line 258). -/
def numRels (sel : List (String × List TableInfo)) : Nat :=
  (sel.map (fun x => x.2.length)).sum

/-- The mode dispatch and relation loops of `ExportWorker.run`
(lines 249-355), started from the initial locals. -/
def relPhase (env : Env) (sel : List (String × List TableInfo)) (mode : Nat)
    (outputDir singlePath : String) (cancel : Option Nat) : WState :=
  let schemas := sel.map (fun x => x.1)
  let total := numRels sel
  let st0 : WState := {}
  if mode = 0 then
    let st := runRelSchemas cancel total (mode0SchemaInit env outputDir)
      (mode0Body env outputDir) sel st0
    { st with
      gpkgCount := (st.schemaGpkgMap.filter (fun pr => env.existsAfter pr.2)).length }
  else if mode = 1 then
    let preDel : List FsAction :=
      if singlePath ≠ "" ∧ env.preExists singlePath then [FsAction.deleteFile singlePath] else []
    let multi := decide (1 < schemas.length)
    let lpm : Option (List (String × String)) :=
      if multi then some (schemas.map (fun s => (s, s ++ "__"))) else none
    let st1 : WState := { st0 with actions := preDel, layerPrefixMap := lpm }
    let st := runRelSchemas cancel total (mode1SchemaInit singlePath)
      (mode1Body env singlePath multi) sel st1
    { st with
      gpkgCount := if singlePath ≠ "" ∧ env.existsAfter singlePath then 1 else 0 }
  else if mode = 2 then
    runRelSchemas cancel total (mode2SchemaInit outputDir) (mode2Body env outputDir) sel st0
  else st0

/-- The optional projects phase of `ExportWorker.run` (lines 357-401): guarded
by `do_projects and not self._cancelled`, it emits the `"QGIS projects..."`
progress notification, then either records the connection error or runs the
projects loop. -/
def docPhase (env : Env) (cancel : Option Nat) (total : Nat) (outputDir : String)
    (mode : Nat) (doProjects : Bool) (stRel : WState) : WState :=
  if doProjects then
    let c := flagOf cancel stRel.reads
    let st1 : WState := { stRel with reads := stRel.reads + 1 }
    if c then st1
    else
      let st2 : WState := { st1 with
        events := st1.events ++ [Event.progress st1.step total "QGIS projects..."] }
      match env.projectsConn with
      | none => { st2 with errors := st2.errors ++ ["Projects: connection error"] }
      | some projects => runProjects env cancel total outputDir mode projects st2
  else stRel

/-- The final `export_finished` emission of `ExportWorker.run` (lines
403-411), reading `self._cancelled` once more for the result dict. -/
def emitResult (mode total : Nat) (cancel : Option Nat) (stDoc : WState) :
    WState × ExportResult :=
  let cFin := flagOf cancel stDoc.reads
  let stFin : WState := { stDoc with reads := stDoc.reads + 1 }
  let res : ExportResult :=
    { okCount := stFin.okCount, errors := stFin.errors, gpkgCount := stFin.gpkgCount,
      exportedProjects := stFin.exportedProjects, mode := mode, total := total,
      cancelled := cFin }
  ({ stFin with events := stFin.events ++ [Event.finished res] }, res)

/-- Embedding of `ExportWorker.run`: mode dispatch and relation loops, optional projects
phase, and the single `export_finished` emission.  Returns the final state
(whose `events` field is the full notification trace) and the emitted result. -/
def workerRun (env : Env) (sel : List (String × List TableInfo)) (mode : Nat)
    (outputDir singlePath : String) (doProjects : Bool) (cancel : Option Nat) :
    WState × ExportResult :=
  emitResult mode (numRels sel) cancel
    (docPhase env cancel (numRels sel) outputDir mode doProjects
      (relPhase env sel mode outputDir singlePath cancel))

/-! ## Derived quantities used to state properties of the run -/

/-- The per-relation progress labels `"<schema>.<table>"` in processing order. -/
def relLabels (sel : List (String × List TableInfo)) : List String :=
  sel.flatMap (fun x => x.2.map (fun t => x.1 ++ "." ++ t.table))

/-- The progress events for the given labels with step indices `n+1, n+2, ...`. -/
def progressFrom (total n : Nat) : List String → List Event
  | [] => []
  | lb :: ls => Event.progress (n + 1) total lb :: progressFrom total (n + 1) ls

/-- Total number of cancellation-flag reads performed by a complete
(uncancelled) relation phase: one per schema plus one per relation. -/
def relReads (sel : List (String × List TableInfo)) : Nat :=
  sel.length + numRels sel

/-- Number of relations the relation phase processes when the flag flips at
read index `c` and the phase starts at read index `r`. -/
def relsBefore (c : Nat) : List (String × List TableInfo) → Nat → Nat
  | [], _ => 0
  | (_, ts) :: rest, r =>
    if c ≤ r then 0
    else min (c - (r + 1)) ts.length + relsBefore c rest (r + 1 + ts.length)

/-- Read index of the first flag read performed after relation `k` (1-based)
has been processed: schema guards plus table guards up to and including
relation `k`.  `none` when the selection has fewer than `k` relations. -/
def readsUpToAux : List (String × List TableInfo) → Nat → Nat → Option Nat
  | [], _, _ => none
  | (_, ts) :: rest, k, r =>
    if k ≤ ts.length then some (r + 1 + k)
    else readsUpToAux rest (k - ts.length) (r + 1 + ts.length)

/-- Specification of `readsUpTo`: `readsUpTo sel k = some c` iff the selection has at least `k ≥ 1`
relations; `c` is then the number of flag reads consumed up to and including
the processing of relation `k`, so `cancel = some c` models `request_cancel`
arriving right after relation `k` has been processed. -/
def readsUpTo (sel : List (String × List TableInfo)) (k : Nat) : Option Nat :=
  if k = 0 then none else readsUpToAux sel k 0

/-- Recognizer for writer calls among recorded side effects. -/
def isExportA : FsAction → Bool
  | FsAction.exportCall _ _ _ _ => true
  | _ => false

/-- The writer calls (relation export attempts) recorded in a state. -/
def exportsOf (st : WState) : List FsAction := st.actions.filter isExportA

/-- Number of relation export attempts recorded in a state. -/
def numExports (st : WState) : Nat := (exportsOf st).length

/-- A state transformer that does not touch the control data of the run:
flag-read counter, step counter, notification trace, exported project list,
and container/map bookkeeping read by the result. -/
def CtlPreserving (f : WState → WState) : Prop :=
  ∀ st, (f st).reads = st.reads ∧ (f st).step = st.step ∧ (f st).events = st.events ∧
    (f st).exportedProjects = st.exportedProjects

/-- The mode-specific loop bodies preserve the control data. -/
def BodyCtl (schemaInit : String → WState → WState)
    (tableBody : String → TableInfo → WState → WState) : Prop :=
  (∀ s, CtlPreserving (schemaInit s)) ∧ (∀ s t, CtlPreserving (tableBody s t))

/-- The per-schema prelude performs no writer call; the per-table body
performs exactly one. -/
def BodyExports (schemaInit : String → WState → WState)
    (tableBody : String → TableInfo → WState → WState) : Prop :=
  (∀ s st, numExports (schemaInit s st) = numExports st) ∧
  (∀ s t st, numExports (tableBody s t st) = numExports st + 1)

/-! ## Concrete fixtures for counterexamples and witnesses -/

/-- An environment in which every writer call succeeds, no file pre-exists,
every file exists afterwards, the projects connection fails, every project
write succeeds, and parsing fails (the collaborators' behavior at the
counterexample inputs). -/
def envOkFixture : Env :=
  { exportOk := fun _ _ _ _ => (true, "OK"),
    preExists := fun _ => false,
    existsAfter := fun _ => true,
    projectsConn := none,
    writeOk := fun _ => true,
    parseDoc := fun _ => none,
    serializeDoc := fun _ => "" }

/-- An environment in which every writer call fails. -/
def envFailFixture : Env :=
  { envOkFixture with exportOk := fun _ _ _ _ => (false, "err") }

/-- A one-schema, one-relation selection. -/
def selFixture : List (String × List TableInfo) := [("s", [{ table := "t" }])]

/-- The worker state entering the mode-1 relation loop: the optional deletion
of a pre-existing single container (lines 293-294) and the layer-prefix map
for multi-schema selections (lines 296-298). -/
def mode1InitState (env : Env) (sel : List (String × List TableInfo)) (singlePath : String) :
    WState :=
  { errors := [], okCount := 0, gpkgCount := 0, schemaGpkgMap := [], tableGpkgMap := [],
    layerPrefixMap := if decide (1 < (sel.map (fun x => x.1)).length) = true
      then some ((sel.map (fun x => x.1)).map (fun s => (s, s ++ "__"))) else none,
    exportedProjects := [], step := 0, reads := 0, events := [],
    actions := if singlePath ≠ "" ∧ env.preExists singlePath
      then [FsAction.deleteFile singlePath] else [] }

/-- Recognizer for non-project-write side effects. -/
def notWriteA : FsAction → Bool
  | FsAction.writeFile _ _ => false
  | _ => true

/-! # Theorems -/

/-! ## Helper lemmas -/

/-- Every value stored in the sslmode mapping is a valid mode string. -/
theorem sslmode_lookup_mem (s m : String) (h : sslmodeMapping.lookup s = some m) :
    m ∈ validSslmodes := by
  simp only [sslmodeMapping, List.lookup] at h
  repeat' split at h
  all_goals simp_all [validSslmodes]

/-- C9 (src/db_utils.py lines 74-86): `normalize_sslmode` is total and always
returns one of the six valid sslmode strings; `None` maps to `"prefer"`; each
of the numeric codes `"0"`–`"5"` and the Qt enum names maps to its
corresponding string; a value that is no mapping key but whose stripped
lowercased form is a valid mode maps to that lowercase form; every other
value maps to `"prefer"`. -/
theorem c9_sslmode_total :
    (∀ v, normalize_sslmode v ∈ validSslmodes)
    ∧ normalize_sslmode none = "prefer"
    ∧ (∀ code ret, sslmodeMapping.lookup (pyStrip code) = some ret →
        normalize_sslmode (some code) = ret)
    ∧ (∀ s, sslmodeMapping.lookup (pyStrip s) = none →
        pyLower (pyStrip s) ∈ validSslmodes →
        normalize_sslmode (some s) = pyLower (pyStrip s))
    ∧ (∀ s, sslmodeMapping.lookup (pyStrip s) = none →
        pyLower (pyStrip s) ∉ validSslmodes →
        normalize_sslmode (some s) = "prefer") := by
  refine ⟨?_, rfl, ?_, ?_, ?_⟩
  · intro v
    cases v with
    | none => simp [normalize_sslmode, validSslmodes]
    | some v =>
      simp only [normalize_sslmode]
      cases h : sslmodeMapping.lookup (pyStrip v) with
      | some m => exact sslmode_lookup_mem _ _ h
      | none =>
        by_cases hc : validSslmodes.contains (pyLower (pyStrip v))
        · simp only [hc, if_true]
          simpa using hc
        · rw [if_neg hc]
          simp [validSslmodes]
  · intro code ret h
    simp [normalize_sslmode, h]
  · intro s h hmem
    have hc : validSslmodes.contains (pyLower (pyStrip s)) = true := by simpa using hmem
    simp only [normalize_sslmode, h]
    rw [if_pos hc]
  · intro s h hmem
    have hc : ¬ validSslmodes.contains (pyLower (pyStrip s)) = true := by
      simpa using hmem
    simp only [normalize_sslmode, h]
    rw [if_neg hc]

/-- Witness for `c9_sslmode_total` at concrete inputs: the Qt code `"3"`, a
mixed-case valid mode with surrounding whitespace, and an unrecognized value. -/
theorem c9_sslmode_total_witness :
    normalize_sslmode (some "3") = "require"
    ∧ normalize_sslmode (some " Verify-CA ") = "verify-ca"
    ∧ normalize_sslmode (some "junk") = "prefer"
    ∧ normalize_sslmode none = "prefer" := by
  refine ⟨?_, ?_, ?_, c9_sslmode_total.2.1⟩
  · exact c9_sslmode_total.2.2.1 "3" "require" (by decide)
  · have h := c9_sslmode_total.2.2.2.1 " Verify-CA " (by decide) (by decide)
    simpa using h
  · exact c9_sslmode_total.2.2.2.2 "junk" (by decide) (by decide)

/-- Lowercasing the concrete suffix `".qgs"` is the identity. -/
theorem qgs_lower_fixed : ".qgs".data.map Char.toLower = ".qgs".data := by decide

/-- C10 (src/export_engine.py lines 367-371): the exported project filename
always ends in `".qgs"` case-insensitively: a name lowercase-ending in
`".qgz"` has its last four characters replaced by `".qgs"`, a name already
lowercase-ending in `".qgs"` is kept unchanged, and any other name gets
`".qgs"` appended. -/
theorem c10_project_extension (pn : String) :
    (".qgz".data.isSuffixOf (pyLower pn).data →
      normalizeProjName pn = ⟨pn.data.take (pn.data.length - 4)⟩ ++ ".qgs")
    ∧ (¬ ".qgz".data.isSuffixOf (pyLower pn).data →
        ".qgs".data.isSuffixOf (pyLower pn).data → normalizeProjName pn = pn)
    ∧ (¬ ".qgz".data.isSuffixOf (pyLower pn).data →
        ¬ ".qgs".data.isSuffixOf (pyLower pn).data → normalizeProjName pn = pn ++ ".qgs")
    ∧ ".qgs".data.isSuffixOf (pyLower (normalizeProjName pn)).data := by
  refine ⟨?_, ?_, ?_, ?_⟩
  · intro h
    simp [normalizeProjName, h]
  · intro h1 h2
    simp [normalizeProjName, h1, h2]
  · intro h1 h2
    simp [normalizeProjName, h1, h2]
  · by_cases h1 : ".qgz".data.isSuffixOf (pyLower pn).data
    · have : normalizeProjName pn = ⟨pn.data.take (pn.data.length - 4)⟩ ++ ".qgs" := by
        simp [normalizeProjName, h1]
      rw [this]
      rw [List.isSuffixOf_iff_suffix]
      simp only [pyLower, String.data_append, List.map_append, qgs_lower_fixed]
      exact List.suffix_append _ _
    · by_cases h2 : ".qgs".data.isSuffixOf (pyLower pn).data
      · have : normalizeProjName pn = pn := by simp [normalizeProjName, h1, h2]
        rw [this]
        exact h2
      · have : normalizeProjName pn = pn ++ ".qgs" := by simp [normalizeProjName, h1, h2]
        rw [this]
        rw [List.isSuffixOf_iff_suffix]
        simp only [pyLower, String.data_append, List.map_append, qgs_lower_fixed]
        exact List.suffix_append _ _

/-- Witness for `c10_project_extension` at `"proj.QGZ"`, `"map.qgs"`, `"plain"`. -/
theorem c10_project_extension_witness :
    normalizeProjName "proj.QGZ" = "proj.qgs"
    ∧ normalizeProjName "map.qgs" = "map.qgs"
    ∧ normalizeProjName "plain" = "plain.qgs" := by
  refine ⟨?_, ?_, ?_⟩
  · have h := (c10_project_extension "proj.QGZ").1 (by decide)
    simpa using h
  · exact (c10_project_extension "map.qgs").2.1 (by decide) (by decide)
  · exact (c10_project_extension "plain").2.2.1 (by decide) (by decide)

/-- C5 (src/export_engine.py lines 119-123): when parsing the document fails,
the rewriter returns the input text unmodified; the embedding is a total
function, so no exception can escape for any string input. -/
theorem c5_parse_failure_passthrough (parseDoc : String → Option QgsDoc)
    (serializeDoc : QgsDoc → String) (xml : String) (sm : List (String × String))
    (tm : List ((String × String) × String)) (pm : Option (List (String × String)))
    (h : parseDoc xml = none) :
    rewrite_qgis_project_datasources parseDoc serializeDoc xml sm tm pm = xml := by
  simp [rewrite_qgis_project_datasources, h]

/-- Witness for `c5_parse_failure_passthrough`: a parser that fails on the
non-well-formed input `"<qgis"` leaves it unchanged. -/
theorem c5_parse_failure_passthrough_witness :
    rewrite_qgis_project_datasources (fun _ => none) (fun _ => "") "<qgis" [] [] none
      = "<qgis" :=
  c5_parse_failure_passthrough (fun _ => none) (fun _ => "") "<qgis" [] [] none rfl

/-- C8 (src/db_utils.py lines 234-262): a payload whose first four bytes are
the archive signature is decoded through the archive branch first: whenever
the archive opens and the targeted member (a `.qgs`-named member when one
exists, else the first member) yields accepted markup text `t`, the extractor
returns `t` — regardless of how the other decoders (in particular the plain
utf-8 decode of the raw bytes) would behave on the same payload. -/
theorem c8_archive_first (env : XEnv) (raw : List Nat) (entries : List ZEntry)
    (e : ZEntry) (t : String)
    (h1 : raw.take 4 = zipSignature)
    (h2 : env.unzip raw = some entries)
    (h3 : ((entries.filter (fun e => ".qgs".data.isSuffixOf (pyLower e.name).data)).head?.orElse
      (fun _ => entries.head?)) = some e)
    (h4 : e.text = some t)
    (h5 : isQgsText t = true) :
    extract_qgs_xml env raw = some t := by
  simp at h3
  simp [extract_qgs_xml, h1, h2, h3, h4, h5]

/-- Witness for `c8_archive_first`: with a raw payload that *also* decodes as
acceptable utf-8 text, the archive member's text wins. -/
theorem c8_archive_first_witness :
    extract_qgs_xml
      { unzip := fun _ => some [{ name := "x.txt", text := some "no" },
          { name := "a.qgs", text := some "<qgis archived/>" }],
        zlibDec := fun _ => none,
        utf8Dec := fun _ => some "<qgis raw-utf8/>" }
      [0x50, 0x4B, 0x03, 0x04, 0x3C, 0x71] = some "<qgis archived/>" := by
  exact c8_archive_first _ _
    [{ name := "x.txt", text := some "no" }, { name := "a.qgs", text := some "<qgis archived/>" }]
    { name := "a.qgs", text := some "<qgis archived/>" } "<qgis archived/>"
    (by decide) rfl (by decide) rfl (by decide)

/-- A layer whose outcome is not `rewrittenL` is returned unchanged. -/
theorem rewriteLayer_not_rewritten (sm : List (String × String))
    (tm : List ((String × String) × String)) (pm : Option (List (String × String)))
    (l : Maplayer) (h : (rewriteLayer sm tm pm l).2 ≠ LayerOutcome.rewrittenL) :
    (rewriteLayer sm tm pm l).1 = l := by
  rcases l with ⟨prov, ds, rest⟩
  cases prov with
  | none => cases ds <;> simp [rewriteLayer]
  | some pt =>
    cases ds with
    | none => simp [rewriteLayer]
    | some dso =>
      cases dso with
      | none => simp [rewriteLayer]
      | some dstext =>
        by_cases hpg : (pt = some "postgres" ∨ strContains "dbname=" dstext
            ∨ strContains "service=" dstext)
        · simp only [rewriteLayer, if_pos hpg] at h ⊢
          cases hp : parseDatasource dstext with
          | none => simp [hp]
          | some st =>
            cases hr : resolveAssign sm tm pm st.1 st.2 with
            | none => simp [hp, hr]
            | some pr =>
              exfalso
              apply h
              simp [hp, hr]
        · simp [rewriteLayer, if_neg hpg]

/-- C3 (src/export_engine.py lines 131-198): with the per-table assignment
`(s, t) → "/out/s/t.gpkg"`, a database-backed layer whose datasource is
`dbname='x' schema='s' table='t'` is rewritten to datasource
`/out/s/t.gpkg|layername=t` with provider `ogr` (the rest of the layer
element untouched); the document transform is the per-layer map, and every
layer that is not rewritten (in particular any layer with no matching
assignment) is returned identical. -/
theorem c3_rewriter_roundtrip (sm : List (String × String))
    (pm : Option (List (String × String))) (doc : QgsDoc) :
    ((rewriteDoc sm [(("s", "t"), "/out/s/t.gpkg")] pm doc).layers
      = doc.layers.map (fun l => (rewriteLayer sm [(("s", "t"), "/out/s/t.gpkg")] pm l).1))
    ∧ (∀ prov rest,
        (rewriteLayer sm [(("s", "t"), "/out/s/t.gpkg")] pm
          { provider := some prov,
            datasource := some (some "dbname='x' schema='s' table='t'"),
            rest := rest }).1
        = { provider := some (some "ogr"),
            datasource := some (some "/out/s/t.gpkg|layername=t"), rest := rest })
    ∧ (∀ l : Maplayer,
        (rewriteLayer sm [(("s", "t"), "/out/s/t.gpkg")] pm l).2 ≠ LayerOutcome.rewrittenL →
        (rewriteLayer sm [(("s", "t"), "/out/s/t.gpkg")] pm l).1 = l) := by
  refine ⟨rfl, ?_, fun l h => rewriteLayer_not_rewritten _ _ _ l h⟩
  intro prov rest
  have hds : strContains "dbname=" "dbname='x' schema='s' table='t'" = true := by decide
  have hp : parseDatasource "dbname='x' schema='s' table='t'" = some ("s", "t") := by decide
  have hr : resolveAssign sm [(("s", "t"), "/out/s/t.gpkg")] pm "s" "t"
      = some ("/out/s/t.gpkg", "t") := by
    simp [resolveAssign, List.lookup]
  simp [rewriteLayer, hds, hp, hr]

/-- Witness for `c3_rewriter_roundtrip`: a matching layer is rewritten, a
layer referencing an unassigned table is returned byte-identical. -/
theorem c3_rewriter_roundtrip_witness :
    (rewriteLayer [] [(("s", "t"), "/out/s/t.gpkg")] none
      { provider := some (some "postgres"),
        datasource := some (some "dbname='x' schema='s' table='t'"), rest := "R" }).1
    = { provider := some (some "ogr"),
        datasource := some (some "/out/s/t.gpkg|layername=t"), rest := "R" }
    ∧ (rewriteLayer [] [(("s", "t"), "/out/s/t.gpkg")] none
        { provider := some (some "postgres"),
          datasource := some (some "dbname='x' schema='o' table='u'"), rest := "S" }).1
      = { provider := some (some "postgres"),
          datasource := some (some "dbname='x' schema='o' table='u'"), rest := "S" } := by
  constructor
  · exact (c3_rewriter_roundtrip [] none ⟨[], 0, true, none, []⟩).2.1 (some "postgres") "R"
  · exact (c3_rewriter_roundtrip [] none ⟨[], 0, true, none, []⟩).2.2
      ⟨some (some "postgres"), some (some "dbname='x' schema='o' table='u'"), "S"⟩ (by decide)

/-- C4 (src/export_engine.py lines 175-190): assignment resolution prefers an
exact `(schema, table)` entry (keeping the bare table name, i.e. no prefix in
the table-level case), falls back to the schema entry (applying the schema's
layer-name prefix when one is recorded), yields nothing when neither
assignment resolves; a layer whose outcome is not a rewrite is left
untouched, a rewrite only ever happens for a parsed datasource with a
resolving assignment, and a qualifying parsed layer with no resolving
assignment is left untouched with a recorded skip. -/
theorem c4_assignment_precedence (sm : List (String × String))
    (tm : List ((String × String) × String)) (pm : Option (List (String × String)))
    (s t : String) :
    (∀ p, tm.lookup (s, t) = some p → p ≠ "" → resolveAssign sm tm pm s t = some (p, t))
    ∧ (tm.lookup (s, t) = none → ∀ p pre, sm.lookup s = some p → p ≠ "" →
        (pm.getD []).lookup s = some pre → resolveAssign sm tm pm s t = some (p, pre ++ t))
    ∧ (tm.lookup (s, t) = none → ∀ p, sm.lookup s = some p → p ≠ "" →
        (pm.getD []).lookup s = none → resolveAssign sm tm pm s t = some (p, t))
    ∧ (tm.lookup (s, t) = none → sm.lookup s = none → resolveAssign sm tm pm s t = none)
    ∧ (∀ l : Maplayer, (rewriteLayer sm tm pm l).2 ≠ LayerOutcome.rewrittenL →
        (rewriteLayer sm tm pm l).1 = l)
    ∧ (∀ l : Maplayer, (rewriteLayer sm tm pm l).2 = LayerOutcome.rewrittenL →
        ∃ ds s' t' pr nm, l.datasource = some (some ds) ∧ parseDatasource ds = some (s', t')
          ∧ resolveAssign sm tm pm s' t' = some (pr, nm))
    ∧ (∀ (l : Maplayer) (prov : Option String) (ds : String),
        l.provider = some prov → l.datasource = some (some ds) →
        (prov = some "postgres" ∨ strContains "dbname=" ds ∨ strContains "service=" ds) →
        parseDatasource ds = some (s, t) → resolveAssign sm tm pm s t = none →
        rewriteLayer sm tm pm l = (l, LayerOutcome.skippedL)) := by
  refine ⟨?_, ?_, ?_, ?_, fun l h => rewriteLayer_not_rewritten _ _ _ l h, ?_, ?_⟩
  · intro p h hp
    simp [resolveAssign, h, hp]
  · intro h p pre h1 hp h2
    simp [resolveAssign, h, h1, h2, hp]
  · intro h p h1 hp h2
    simp [resolveAssign, h, h1, h2, hp]
  · intro h h1
    simp [resolveAssign, h, h1]
  · intro l h
    rcases l with ⟨prov, ds, rest⟩
    cases prov with
    | none => cases ds <;> simp [rewriteLayer] at h
    | some pt =>
      cases ds with
      | none => simp [rewriteLayer] at h
      | some dso =>
        cases dso with
        | none => simp [rewriteLayer] at h
        | some dstext =>
          by_cases hpg : (pt = some "postgres" ∨ strContains "dbname=" dstext
              ∨ strContains "service=" dstext)
          · simp only [rewriteLayer, if_pos hpg] at h
            cases hp : parseDatasource dstext with
            | none => rw [hp] at h; simp at h
            | some st =>
              obtain ⟨s1, t1⟩ := st
              cases hr : resolveAssign sm tm pm s1 t1 with
              | none => simp [hp, hr] at h
              | some pr =>
                exact ⟨dstext, s1, t1, pr.1, pr.2, rfl, by rw [hp], by simpa using hr⟩
          · simp [rewriteLayer, if_neg hpg] at h
  · intro l prov ds h1 h2 hpg hp hr
    rcases l with ⟨prov', ds', rest⟩
    simp only [Maplayer.mk.injEq] at h1 h2
    subst h1
    subst h2
    simp [rewriteLayer, if_pos hpg, hp, hr]

/-- Witness for `c4_assignment_precedence`: table-level entry wins over a
schema-level entry with prefix; schema fallback applies the prefix; no
assignment resolves to nothing. -/
theorem c4_assignment_precedence_witness :
    resolveAssign [("s", "/schema.gpkg")] [(("s", "t"), "/table.gpkg")]
      (some [("s", "s__")]) "s" "t" = some ("/table.gpkg", "t")
    ∧ resolveAssign [("s", "/schema.gpkg")] [] (some [("s", "s__")]) "s" "t"
      = some ("/schema.gpkg", "s__" ++ "t")
    ∧ resolveAssign [] [] none "s" "t" = none := by
  refine ⟨?_, ?_, ?_⟩
  · exact (c4_assignment_precedence [("s", "/schema.gpkg")] [(("s", "t"), "/table.gpkg")]
      (some [("s", "s__")]) "s" "t").1 "/table.gpkg" (by decide) (by decide)
  · exact (c4_assignment_precedence [("s", "/schema.gpkg")] [] (some [("s", "s__")])
      "s" "t").2.1 rfl "/schema.gpkg" "s__" (by decide) (by decide) (by decide)
  · exact (c4_assignment_precedence [] [] none "s" "t").2.2.2.1 rfl rfl

/-! ## Structural lemmas about the worker loops -/

theorem numRels_cons (s : String) (ts : List TableInfo)
    (rest : List (String × List TableInfo)) :
    numRels ((s, ts) :: rest) = ts.length + numRels rest := by
  simp [numRels]

theorem relReads_cons (s : String) (ts : List TableInfo)
    (rest : List (String × List TableInfo)) :
    relReads ((s, ts) :: rest) = 1 + ts.length + relReads rest := by
  simp [relReads, numRels]
  omega

theorem relLabels_cons (s : String) (ts : List TableInfo)
    (rest : List (String × List TableInfo)) :
    relLabels ((s, ts) :: rest)
      = ts.map (fun t => s ++ "." ++ t.table) ++ relLabels rest := by
  simp [relLabels]

theorem relLabels_length (sel : List (String × List TableInfo)) :
    (relLabels sel).length = numRels sel := by
  induction sel with
  | nil => simp [relLabels, numRels]
  | cons x rest ih =>
    obtain ⟨s, ts⟩ := x
    rw [relLabels_cons, numRels_cons]
    simp [ih]

theorem progressFrom_append (total n : Nat) (a b : List String) :
    progressFrom total n (a ++ b)
      = progressFrom total n a ++ progressFrom total (n + a.length) b := by
  induction a generalizing n with
  | nil => simp [progressFrom]
  | cons x xs ih =>
    simp only [List.cons_append, progressFrom, List.length_cons, List.append_eq]
    rw [ih]
    rw [show n + (xs.length + 1) = n + 1 + xs.length from by omega]

theorem relsBefore_of_le (c : Nat) (sel : List (String × List TableInfo)) (r : Nat)
    (h : c ≤ r) : relsBefore c sel r = 0 := by
  cases sel with
  | nil => rfl
  | cons x rest =>
    obtain ⟨s, ts⟩ := x
    simp [relsBefore, if_pos h]

theorem relsBefore_le (c : Nat) (sel : List (String × List TableInfo)) :
    ∀ r, relsBefore c sel r ≤ numRels sel := by
  induction sel with
  | nil => intro r; simp [relsBefore, numRels]
  | cons x rest ih =>
    intro r
    obtain ⟨s, ts⟩ := x
    rw [numRels_cons]
    by_cases h : c ≤ r
    · rw [relsBefore_of_le c _ r h]
      omega
    · simp only [relsBefore, if_neg h]
      have := ih (r + 1 + ts.length)
      omega

/-- Characterization of `readsUpTo`: the flag read index it returns processes
exactly `k` relations, lies within the reads of a full relation phase, and is
positive. -/
theorem readsUpToAux_spec (c : Nat) :
    ∀ (sel : List (String × List TableInfo)) (k r : Nat), 1 ≤ k →
      readsUpToAux sel k r = some c →
      relsBefore c sel r = k ∧ c ≤ r + relReads sel ∧ r < c := by
  intro sel
  induction sel with
  | nil => intro k r _ h; simp [readsUpToAux] at h
  | cons x rest ih =>
    intro k r hk h
    obtain ⟨s, ts⟩ := x
    rw [relReads_cons]
    simp only [readsUpToAux] at h
    by_cases hle : k ≤ ts.length
    · rw [if_pos hle] at h
      have hc : r + 1 + k = c := by simpa using h
      refine ⟨?_, by omega, by omega⟩
      simp only [relsBefore]
      rw [if_neg (by omega : ¬ c ≤ r)]
      rw [relsBefore_of_le c rest _ (by omega)]
      omega
    · rw [if_neg hle] at h
      obtain ⟨h1, h2, h3⟩ := ih (k - ts.length) (r + 1 + ts.length) (by omega) h
      refine ⟨?_, by omega, by omega⟩
      simp only [relsBefore]
      rw [if_neg (by omega : ¬ c ≤ r)]
      rw [h1]
      omega

/-- Characterization: `readsUpTo sel k = some c` pins down `c` as a flag-flip point after which
exactly `k` relations have been processed, within the relation phase. -/
theorem readsUpTo_spec (sel : List (String × List TableInfo)) (k c : Nat)
    (h : readsUpTo sel k = some c) :
    relsBefore c sel 0 = k ∧ c ≤ relReads sel ∧ 0 < c := by
  unfold readsUpTo at h
  by_cases hk : k = 0
  · simp [hk] at h
  · rw [if_neg hk] at h
    have hres := readsUpToAux_spec c sel k 0 (by omega) h
    simpa using hres

theorem bodyCtl_mode0 (env : Env) (outputDir : String) :
    BodyCtl (mode0SchemaInit env outputDir) (mode0Body env outputDir) := by
  constructor
  · intro s st
    simp only [mode0SchemaInit]
    split <;> simp
  · intro s t st
    simp only [mode0Body]
    split_ifs <;> simp

theorem bodyCtl_mode1 (env : Env) (singlePath : String) (multi : Bool) :
    BodyCtl (mode1SchemaInit singlePath) (mode1Body env singlePath multi) := by
  constructor
  · intro s st
    simp [mode1SchemaInit]
  · intro s t st
    simp only [mode1Body]
    split_ifs <;> simp

theorem bodyCtl_mode2 (env : Env) (outputDir : String) :
    BodyCtl (mode2SchemaInit outputDir) (mode2Body env outputDir) := by
  constructor
  · intro s st
    simp [mode2SchemaInit]
  · intro s t st
    simp only [mode2Body]
    split_ifs <;> simp

theorem bodyExports_mode0 (env : Env) (outputDir : String) :
    BodyExports (mode0SchemaInit env outputDir) (mode0Body env outputDir) := by
  constructor
  · intro s st
    simp only [mode0SchemaInit, numExports, exportsOf]
    split <;> simp [List.filter_append, isExportA]
  · intro s t st
    simp only [mode0Body, numExports, exportsOf]
    split <;> simp [List.filter_append, isExportA]

theorem bodyExports_mode1 (env : Env) (singlePath : String) (multi : Bool) :
    BodyExports (mode1SchemaInit singlePath) (mode1Body env singlePath multi) := by
  constructor
  · intro s st
    simp [mode1SchemaInit, numExports, exportsOf]
  · intro s t st
    simp only [mode1Body, numExports, exportsOf]
    split_ifs <;> simp [List.filter_append, isExportA]

theorem bodyExports_mode2 (env : Env) (outputDir : String) :
    BodyExports (mode2SchemaInit outputDir) (mode2Body env outputDir) := by
  constructor
  · intro s st
    simp [mode2SchemaInit, numExports, exportsOf, List.filter_append, isExportA]
  · intro s t st
    simp only [mode2Body, numExports, exportsOf]
    split_ifs <;> simp [List.filter_append, isExportA]

/-- Once the flag is observed set, the schema loop stops before touching
anything except the flag-read counter. -/
theorem runRelSchemas_done (c total : Nat) (schemaInit : String → WState → WState)
    (tableBody : String → TableInfo → WState → WState)
    (sel : List (String × List TableInfo)) (st : WState) (h : c ≤ st.reads) :
    (runRelSchemas (some c) total schemaInit tableBody sel st).step = st.step
    ∧ (runRelSchemas (some c) total schemaInit tableBody sel st).events = st.events
    ∧ (runRelSchemas (some c) total schemaInit tableBody sel st).exportedProjects
        = st.exportedProjects
    ∧ (runRelSchemas (some c) total schemaInit tableBody sel st).actions = st.actions
    ∧ st.reads ≤ (runRelSchemas (some c) total schemaInit tableBody sel st).reads := by
  cases sel with
  | nil => simp [runRelSchemas]
  | cons x rest =>
    obtain ⟨s, ts⟩ := x
    have hf : flagOf (some c) st.reads = true := by simp [flagOf, h]
    simp [runRelSchemas, hf]

/-- The uncancelled table loop: control components after a full pass. -/
theorem runRelTables_none (total : Nat) (tableBody : String → TableInfo → WState → WState)
    (schema : String) (hb : ∀ s t, CtlPreserving (tableBody s t))
    (hbe : ∀ s t st, numExports (tableBody s t st) = numExports st + 1) :
    ∀ (ts : List TableInfo) (st : WState),
      (runRelTables none total tableBody schema ts st).reads = st.reads + ts.length
      ∧ (runRelTables none total tableBody schema ts st).step = st.step + ts.length
      ∧ (runRelTables none total tableBody schema ts st).events
          = st.events ++ progressFrom total st.step (ts.map (fun t => schema ++ "." ++ t.table))
      ∧ (runRelTables none total tableBody schema ts st).exportedProjects
          = st.exportedProjects
      ∧ numExports (runRelTables none total tableBody schema ts st)
          = numExports st + ts.length := by
  intro ts
  induction ts with
  | nil => intro st; simp [runRelTables, progressFrom]
  | cons t ts ih =>
    intro st
    obtain ⟨hbr, hbs, hbev, hbep⟩ := hb schema t
      { st with
        reads := st.reads + 1,
        step := st.step + 1,
        events := st.events ++ [Event.progress (st.step + 1) total (schema ++ "." ++ t.table)] }
    obtain ⟨ihr, ihs, ihev, ihep, ihex⟩ := ih (tableBody schema t
      { st with
        reads := st.reads + 1,
        step := st.step + 1,
        events := st.events ++ [Event.progress (st.step + 1) total (schema ++ "." ++ t.table)] })
    have hbx := hbe schema t
      { st with
        reads := st.reads + 1,
        step := st.step + 1,
        events := st.events ++ [Event.progress (st.step + 1) total (schema ++ "." ++ t.table)] }
    simp only [runRelTables, flagOf, if_false, Bool.false_eq_true, ite_false]
    refine ⟨?_, ?_, ?_, ?_, ?_⟩
    · rw [ihr, hbr]; simp; omega
    · rw [ihs, hbs]; simp; omega
    · rw [ihev, hbev, hbs]
      simp [progressFrom, List.append_assoc]
    · rw [ihep, hbep]
    · rw [ihex, hbx]
      simp [numExports, exportsOf]
      omega

/-- The uncancelled schema loop: a full pass processes every relation, reads
the flag once per schema plus once per relation, emits the per-relation
progress events with consecutive step indices, and performs one writer call
per relation. -/
theorem runRelSchemas_none (total : Nat) (schemaInit : String → WState → WState)
    (tableBody : String → TableInfo → WState → WState)
    (hi : ∀ s, CtlPreserving (schemaInit s))
    (hie : ∀ s st, numExports (schemaInit s st) = numExports st)
    (hb : ∀ s t, CtlPreserving (tableBody s t))
    (hbe : ∀ s t st, numExports (tableBody s t st) = numExports st + 1) :
    ∀ (sel : List (String × List TableInfo)) (st : WState),
      (runRelSchemas none total schemaInit tableBody sel st).reads = st.reads + relReads sel
      ∧ (runRelSchemas none total schemaInit tableBody sel st).step = st.step + numRels sel
      ∧ (runRelSchemas none total schemaInit tableBody sel st).events
          = st.events ++ progressFrom total st.step (relLabels sel)
      ∧ (runRelSchemas none total schemaInit tableBody sel st).exportedProjects
          = st.exportedProjects
      ∧ numExports (runRelSchemas none total schemaInit tableBody sel st)
          = numExports st + numRels sel := by
  intro sel
  induction sel with
  | nil => intro st; simp [runRelSchemas, relReads, numRels, relLabels, progressFrom]
  | cons x rest ih =>
    intro st
    obtain ⟨s, ts⟩ := x
    obtain ⟨hir, his, hiev, hiep⟩ := hi s { st with reads := st.reads + 1 }
    have hix := hie s { st with reads := st.reads + 1 }
    obtain ⟨htr, hts, htev, htep, htex⟩ :=
      runRelTables_none total tableBody s hb hbe ts (schemaInit s { st with reads := st.reads + 1 })
    obtain ⟨ihr, ihs, ihev, ihep, ihex⟩ := ih (runRelTables none total tableBody s ts
      (schemaInit s { st with reads := st.reads + 1 }))
    simp only [runRelSchemas, flagOf, if_false, Bool.false_eq_true, ite_false]
    rw [relReads_cons, numRels_cons, relLabels_cons]
    refine ⟨?_, ?_, ?_, ?_, ?_⟩
    · rw [ihr, htr, hir]; simp; omega
    · rw [ihs, hts, his]; simp; omega
    · rw [ihev, htev, hiev, hts, his]
      rw [progressFrom_append, List.append_assoc]
      simp
    · rw [ihep, htep, hiep]
    · rw [ihex, htex, hix]
      simp [numExports, exportsOf]
      omega

/-- The cancelled table loop, starting with the flag not yet observed
(`st.reads ≤ c`): exactly `min (c - st.reads) ts.length` tables are processed
before the flag is observed (or the list ends). -/
theorem runRelTables_cancel (c total : Nat)
    (tableBody : String → TableInfo → WState → WState) (schema : String)
    (hb : ∀ s t, CtlPreserving (tableBody s t))
    (hbe : ∀ s t st, numExports (tableBody s t st) = numExports st + 1) :
    ∀ (ts : List TableInfo) (st : WState), st.reads ≤ c →
      (runRelTables (some c) total tableBody schema ts st).step
          = st.step + min (c - st.reads) ts.length
      ∧ (runRelTables (some c) total tableBody schema ts st).events
          = st.events ++ progressFrom total st.step
              ((ts.map (fun t => schema ++ "." ++ t.table)).take (min (c - st.reads) ts.length))
      ∧ (runRelTables (some c) total tableBody schema ts st).exportedProjects
          = st.exportedProjects
      ∧ numExports (runRelTables (some c) total tableBody schema ts st)
          = numExports st + min (c - st.reads) ts.length
      ∧ (st.reads + ts.length ≤ c →
          (runRelTables (some c) total tableBody schema ts st).reads = st.reads + ts.length)
      ∧ (c < st.reads + ts.length →
          (runRelTables (some c) total tableBody schema ts st).reads = c + 1) := by
  intro ts
  induction ts with
  | nil =>
    intro st h
    simp only [runRelTables]
    refine ⟨?_, ?_, ?_, ?_, ?_, ?_⟩
    · first
      | trivial
      | simp
    · first
      | trivial
      | simp [progressFrom]
    · first
      | trivial
      | simp
    · first
      | trivial
      | simp [numExports, exportsOf]
    · intro hle
      first
      | trivial
      | simp
    · intro hlt
      simp at hlt
      omega
  | cons t ts ih =>
    intro st h
    by_cases hc : c ≤ st.reads
    · have hceq : c = st.reads := by omega
      have hf : flagOf (some c) st.reads = true := by simp [flagOf, hc]
      simp only [runRelTables, hf, if_true]
      have hmin : min (c - st.reads) (t :: ts).length = 0 := by
        simp [hceq]
      rw [hmin]
      refine ⟨?_, ?_, ?_, ?_, ?_, ?_⟩
      · first
        | trivial
        | simp
      · first
        | trivial
        | simp [progressFrom]
      · first
        | trivial
        | simp
      · first
        | trivial
        | simp [numExports, exportsOf]
      · intro hle
        simp at hle
        omega
      · intro hlt
        first
        | (simp; omega)
        | omega
    · have hf : flagOf (some c) st.reads = false := by simp [flagOf]; omega
      simp only [runRelTables, hf, Bool.false_eq_true, if_false]
      obtain ⟨hbr, hbs, hbev, hbep⟩ := hb schema t
        { st with
          reads := st.reads + 1,
          step := st.step + 1,
          events := st.events ++ [Event.progress (st.step + 1) total (schema ++ "." ++ t.table)] }
      have hbx := hbe schema t
        { st with
          reads := st.reads + 1,
          step := st.step + 1,
          events := st.events ++ [Event.progress (st.step + 1) total (schema ++ "." ++ t.table)] }
      have hreads2 : (tableBody schema t
        { st with
          reads := st.reads + 1,
          step := st.step + 1,
          events := st.events ++ [Event.progress (st.step + 1) total (schema ++ "." ++ t.table)]
          }).reads = st.reads + 1 := by rw [hbr]
      obtain ⟨ihs, ihev, ihep, ihex, ihr1, ihr2⟩ := ih (tableBody schema t
        { st with
          reads := st.reads + 1,
          step := st.step + 1,
          events := st.events ++ [Event.progress (st.step + 1) total (schema ++ "." ++ t.table)] })
        (by rw [hreads2]; omega)
      have hminsucc : min (c - st.reads) (t :: ts).length
          = min (c - (st.reads + 1)) ts.length + 1 := by
        simp only [List.length_cons]
        omega
      rw [hminsucc]
      refine ⟨?_, ?_, ?_, ?_, ?_, ?_⟩
      · rw [ihs, hbs, hreads2]; simp; omega
      · rw [ihev, hbev, hbs, hreads2]
        simp only [List.map_cons, List.take_succ_cons, progressFrom]
        simp [List.append_assoc]
      · rw [ihep, hbep]
      · rw [ihex, hbx, hreads2]
        simp only [numExports, exportsOf]
        omega
      · intro hle
        rw [ihr1 (by rw [hreads2]; simp at hle ⊢; omega), hreads2]
        simp at hle ⊢
        omega
      · intro hlt
        rw [ihr2 (by rw [hreads2]; simp at hlt ⊢; omega)]

/-- The cancelled schema loop: starting with the flag not yet observed, the
phase processes exactly `relsBefore c sel st.reads` relations (with their
progress events and writer calls in order) and, when the flag flips inside
the phase, finishes with the read counter beyond `c`. -/
theorem runRelSchemas_cancel (c total : Nat) (schemaInit : String → WState → WState)
    (tableBody : String → TableInfo → WState → WState)
    (hi : ∀ s, CtlPreserving (schemaInit s))
    (hie : ∀ s st, numExports (schemaInit s st) = numExports st)
    (hb : ∀ s t, CtlPreserving (tableBody s t))
    (hbe : ∀ s t st, numExports (tableBody s t st) = numExports st + 1) :
    ∀ (sel : List (String × List TableInfo)) (st : WState), st.reads ≤ c →
      (runRelSchemas (some c) total schemaInit tableBody sel st).step
          = st.step + relsBefore c sel st.reads
      ∧ (runRelSchemas (some c) total schemaInit tableBody sel st).events
          = st.events ++ progressFrom total st.step
              ((relLabels sel).take (relsBefore c sel st.reads))
      ∧ (runRelSchemas (some c) total schemaInit tableBody sel st).exportedProjects
          = st.exportedProjects
      ∧ numExports (runRelSchemas (some c) total schemaInit tableBody sel st)
          = numExports st + relsBefore c sel st.reads
      ∧ (st.reads + relReads sel ≤ c →
          (runRelSchemas (some c) total schemaInit tableBody sel st).reads
            = st.reads + relReads sel)
      ∧ (c < st.reads + relReads sel →
          c < (runRelSchemas (some c) total schemaInit tableBody sel st).reads) := by
  intro sel
  induction sel with
  | nil =>
    intro st h
    simp only [runRelSchemas, relsBefore]
    refine ⟨by simp, by simp [relLabels, progressFrom], trivial, by simp, ?_, ?_⟩
    · intro hle
      simp [relReads, numRels]
    · intro hlt
      simp [relReads, numRels] at hlt
      omega
  | cons x rest ih =>
    intro st h
    obtain ⟨s, ts⟩ := x
    by_cases hc : c ≤ st.reads
    · have hf : flagOf (some c) st.reads = true := by simp [flagOf, hc]
      simp only [runRelSchemas, hf, if_true]
      have hrb : relsBefore c ((s, ts) :: rest) st.reads = 0 := by
        simp only [relsBefore]
        rw [if_pos hc]
      rw [hrb]
      rw [relReads_cons]
      refine ⟨?_, ?_, ?_, ?_, ?_, ?_⟩
      · first
        | trivial
        | simp
      · first
        | trivial
        | simp [progressFrom]
      · first
        | trivial
        | simp
      · first
        | trivial
        | simp [numExports, exportsOf]
      · intro hle
        omega
      · intro hlt
        first
        | (simp; omega)
        | omega
    · have hf : flagOf (some c) st.reads = false := by simp [flagOf]; omega
      simp only [runRelSchemas, hf, Bool.false_eq_true, if_false]
      obtain ⟨hir, his, hiev, hiep⟩ := hi s { st with reads := st.reads + 1 }
      have hix := hie s { st with reads := st.reads + 1 }
      have hreads2 : (schemaInit s { st with reads := st.reads + 1 }).reads = st.reads + 1 := by
        rw [hir]
      have hstep2 : (schemaInit s { st with reads := st.reads + 1 }).step = st.step := by
        rw [his]
      have hev2 : (schemaInit s { st with reads := st.reads + 1 }).events = st.events := by
        rw [hiev]
      obtain ⟨hts, htev, htep, htex, htr1, htr2⟩ :=
        runRelTables_cancel c total tableBody s hb hbe ts
          (schemaInit s { st with reads := st.reads + 1 }) (by omega)
      rw [hreads2] at hts htev htex htr1 htr2
      rw [hstep2] at hts
      rw [hstep2, hev2] at htev
      have hrb : relsBefore c ((s, ts) :: rest) st.reads
          = min (c - (st.reads + 1)) ts.length
            + relsBefore c rest (st.reads + 1 + ts.length) := by
        simp only [relsBefore]
        rw [if_neg hc]
      by_cases hfull : st.reads + 1 + ts.length ≤ c
      · have hreadsT : (runRelTables (some c) total tableBody s ts
            (schemaInit s { st with reads := st.reads + 1 })).reads
              = st.reads + 1 + ts.length := htr1 (by omega)
        have hminfull : min (c - (st.reads + 1)) ts.length = ts.length := by omega
        obtain ⟨ihs, ihev, ihep, ihex, ihr1, ihr2⟩ := ih (runRelTables (some c) total tableBody
          s ts (schemaInit s { st with reads := st.reads + 1 })) (by omega)
        rw [hreadsT] at ihs ihev ihex ihr1 ihr2
        rw [hrb, hminfull]
        have hlabellen : (ts.map (fun t => s ++ "." ++ t.table)).length = ts.length := by simp
        refine ⟨?_, ?_, ?_, ?_, ?_, ?_⟩
        · rw [ihs, hts, hminfull]
          omega
        · rw [ihev, htev, hts, hminfull]
          rw [relLabels_cons]
          rw [show ts.length + relsBefore c rest (st.reads + 1 + ts.length)
              = (ts.map (fun t => s ++ "." ++ t.table)).length
                + relsBefore c rest (st.reads + 1 + ts.length) from by rw [hlabellen]]
          rw [List.take_append]
          rw [progressFrom_append]
          rw [show (ts.map (fun t => s ++ "." ++ t.table)).take ts.length
              = ts.map (fun t => s ++ "." ++ t.table) from by
            rw [← hlabellen, List.take_length]]
          rw [hlabellen, List.append_assoc]
        · rw [ihep, htep, hiep]
        · rw [ihex, htex, hix, hminfull]
          simp only [numExports, exportsOf]
          omega
        · intro hle
          rw [relReads_cons] at hle
          rw [ihr1 (by omega), relReads_cons]
          omega
        · intro hlt
          rw [relReads_cons] at hlt
          exact ihr2 (by omega)
      · have hreadsT : (runRelTables (some c) total tableBody s ts
            (schemaInit s { st with reads := st.reads + 1 })).reads = c + 1 := htr2 (by omega)
        obtain ⟨ds, dev, dep, dact, dreads⟩ := runRelSchemas_done c total schemaInit tableBody
          rest (runRelTables (some c) total tableBody s ts
            (schemaInit s { st with reads := st.reads + 1 })) (by omega)
        have hrb0 : relsBefore c rest (st.reads + 1 + ts.length) = 0 :=
          relsBefore_of_le c rest _ (by omega)
        rw [hrb, hrb0]
        simp only [Nat.add_zero]
        have hjle : min (c - (st.reads + 1)) ts.length ≤ ts.length := by omega
        refine ⟨?_, ?_, ?_, ?_, ?_, ?_⟩
        · rw [ds, hts]
        · rw [dev, htev]
          rw [relLabels_cons]
          rw [List.take_append_of_le_length (by simpa using hjle)]
        · rw [dep, htep, hiep]
        · have : numExports (runRelSchemas (some c) total schemaInit tableBody rest
              (runRelTables (some c) total tableBody s ts
                (schemaInit s { st with reads := st.reads + 1 })))
              = numExports (runRelTables (some c) total tableBody s ts
                (schemaInit s { st with reads := st.reads + 1 })) := by
            simp only [numExports, exportsOf]
            rw [dact]
          rw [this, htex, hix]
          simp only [numExports, exportsOf]
        · intro hle
          rw [relReads_cons] at hle
          omega
        · intro hlt
          omega

/-- The projects loop only appends project-file writes to the action trace
and never changes the container count or the writer-call trace. -/
theorem runProjects_keeps (env : Env) (cancel : Option Nat) (total : Nat)
    (outputDir : String) (mode : Nat) :
    ∀ (ps : List Project) (st : WState),
      (runProjects env cancel total outputDir mode ps st).actions.filter notWriteA
        = st.actions.filter notWriteA
      ∧ (runProjects env cancel total outputDir mode ps st).actions.filter isExportA
        = st.actions.filter isExportA
      ∧ (runProjects env cancel total outputDir mode ps st).gpkgCount = st.gpkgCount := by
  intro ps
  induction ps with
  | nil => intro st; exact ⟨rfl, rfl, rfl⟩
  | cons p ps ih =>
    intro st
    simp only [runProjects]
    by_cases hc : flagOf cancel st.reads = true
    · simp [hc]
    · simp only [Bool.not_eq_true] at hc
      simp only [hc, Bool.false_eq_true, if_false]
      by_cases hw : env.writeOk (joinPath outputDir (normalizeProjName p.name)) = true
      · simp only [hw, if_true]
        obtain ⟨ih1, ih2, ih3⟩ := ih _
        rw [ih1, ih2, ih3]
        simp [List.filter_append, notWriteA, isExportA]
      · simp only [Bool.not_eq_true] at hw
        simp only [hw, Bool.false_eq_true, if_false]
        obtain ⟨ih1, ih2, ih3⟩ := ih _
        rw [ih1, ih2, ih3]
        exact ⟨rfl, rfl, rfl⟩

/-- Mode 1 table loop: the recorded side effects are exactly one writer call
per table, into the single container, with the layer-name override
`<schema>__<table>` when `multi` holds and the bare table name otherwise. -/
theorem mode1_tables_actions (env : Env) (singlePath : String) (multi : Bool)
    (total : Nat) (schema : String) :
    ∀ (ts : List TableInfo) (st : WState),
      (runRelTables none total (mode1Body env singlePath multi) schema ts st).actions
        = st.actions ++ ts.map (fun t => FsAction.exportCall schema t.table singlePath
            (some (if multi then schema ++ "__" ++ t.table else t.table))) := by
  intro ts
  induction ts with
  | nil => intro st; simp [runRelTables]
  | cons t ts ih =>
    intro st
    simp only [runRelTables, flagOf, Bool.false_eq_true, if_false, ite_false]
    rw [ih]
    have hact : ∀ st' : WState, (mode1Body env singlePath multi schema t st').actions
        = st'.actions ++ [FsAction.exportCall schema t.table singlePath
            (some (if multi then schema ++ "__" ++ t.table else t.table))] := by
      intro st'
      simp only [mode1Body]
      split_ifs <;> simp
    rw [hact]
    simp

/-- Mode 1 schema loop: the accumulated writer calls over the whole selection. -/
theorem mode1_schemas_actions (env : Env) (singlePath : String) (multi : Bool)
    (total : Nat) :
    ∀ (sel : List (String × List TableInfo)) (st : WState),
      (runRelSchemas none total (mode1SchemaInit singlePath)
          (mode1Body env singlePath multi) sel st).actions
        = st.actions ++ sel.flatMap (fun x => x.2.map (fun t =>
            FsAction.exportCall x.1 t.table singlePath
              (some (if multi then x.1 ++ "__" ++ t.table else t.table)))) := by
  intro sel
  induction sel with
  | nil => intro st; simp [runRelSchemas]
  | cons x rest ih =>
    intro st
    obtain ⟨s, ts⟩ := x
    simp only [runRelSchemas, flagOf, Bool.false_eq_true, if_false, ite_false]
    rw [ih, mode1_tables_actions]
    simp [mode1SchemaInit]

/-- Mode 2 table loop: per table, an optional deletion of the pre-existing
container at `<outputDir>/<schema>/<table>.gpkg` immediately followed by the
writer call for that exact path; when every writer call succeeds the
container count grows by one per table. -/
theorem mode2_tables_run (env : Env) (outputDir : String) (total : Nat) (schema : String) :
    ∀ (ts : List TableInfo) (st : WState),
      (runRelTables none total (mode2Body env outputDir) schema ts st).actions
        = st.actions ++ ts.flatMap (fun t =>
            (if env.preExists (joinPath (joinPath outputDir schema) (t.table ++ ".gpkg"))
              then [FsAction.deleteFile (joinPath (joinPath outputDir schema) (t.table ++ ".gpkg"))]
              else [])
            ++ [FsAction.exportCall schema t.table
                (joinPath (joinPath outputDir schema) (t.table ++ ".gpkg")) none])
      ∧ ((∀ s' t' p ln, (env.exportOk s' t' p ln).1 = true) →
          (runRelTables none total (mode2Body env outputDir) schema ts st).gpkgCount
            = st.gpkgCount + ts.length) := by
  intro ts
  induction ts with
  | nil => intro st; exact ⟨by simp [runRelTables], fun _ => by simp [runRelTables]⟩
  | cons t ts ih =>
    intro st
    simp only [runRelTables, flagOf, Bool.false_eq_true, if_false, ite_false]
    constructor
    · obtain ⟨ih1, _⟩ := ih _
      rw [ih1]
      have hact : ∀ st' : WState, (mode2Body env outputDir schema t st').actions
          = st'.actions
            ++ (if env.preExists (joinPath (joinPath outputDir schema) (t.table ++ ".gpkg"))
              then [FsAction.deleteFile (joinPath (joinPath outputDir schema) (t.table ++ ".gpkg"))]
              else [])
            ++ [FsAction.exportCall schema t.table
                (joinPath (joinPath outputDir schema) (t.table ++ ".gpkg")) none] := by
        intro st'
        simp only [mode2Body]
        split_ifs <;> simp
      rw [hact]
      simp
    · intro hok
      obtain ⟨_, ih2⟩ := ih _
      rw [ih2 hok]
      have hgp : ∀ st' : WState, (mode2Body env outputDir schema t st').gpkgCount
          = st'.gpkgCount + 1 := by
        intro st'
        simp only [mode2Body]
        rw [if_pos (hok schema t.table
          (joinPath (joinPath outputDir schema) (t.table ++ ".gpkg")) none)]
        split_ifs <;> simp
      rw [hgp]
      simp
      omega

/-- Mode 2 schema loop: per schema a directory creation followed by the
per-table blocks; with an always-succeeding writer the container count equals
the relation count. -/
theorem mode2_schemas_run (env : Env) (outputDir : String) (total : Nat) :
    ∀ (sel : List (String × List TableInfo)) (st : WState),
      (runRelSchemas none total (mode2SchemaInit outputDir)
          (mode2Body env outputDir) sel st).actions
        = st.actions ++ sel.flatMap (fun x =>
            FsAction.mkdirP (joinPath outputDir x.1) :: x.2.flatMap (fun t =>
              (if env.preExists (joinPath (joinPath outputDir x.1) (t.table ++ ".gpkg"))
                then [FsAction.deleteFile (joinPath (joinPath outputDir x.1) (t.table ++ ".gpkg"))]
                else [])
              ++ [FsAction.exportCall x.1 t.table
                  (joinPath (joinPath outputDir x.1) (t.table ++ ".gpkg")) none]))
      ∧ ((∀ s' t' p ln, (env.exportOk s' t' p ln).1 = true) →
          (runRelSchemas none total (mode2SchemaInit outputDir)
              (mode2Body env outputDir) sel st).gpkgCount
            = st.gpkgCount + numRels sel) := by
  intro sel
  induction sel with
  | nil =>
    intro st
    exact ⟨by simp [runRelSchemas], fun _ => by simp [runRelSchemas, numRels]⟩
  | cons x rest ih =>
    intro st
    obtain ⟨s, ts⟩ := x
    simp only [runRelSchemas, flagOf, Bool.false_eq_true, if_false, ite_false]
    constructor
    · obtain ⟨ih1, _⟩ := ih _
      rw [ih1]
      obtain ⟨ht1, _⟩ := mode2_tables_run env outputDir total s ts (mode2SchemaInit outputDir s
        { st with reads := st.reads + 1 })
      rw [ht1]
      simp [mode2SchemaInit]
    · intro hok
      obtain ⟨_, ih2⟩ := ih _
      rw [ih2 hok]
      obtain ⟨_, ht2⟩ := mode2_tables_run env outputDir total s ts (mode2SchemaInit outputDir s
        { st with reads := st.reads + 1 })
      rw [ht2 hok]
      rw [numRels_cons]
      simp [mode2SchemaInit]
      omega

/-- Cancellation behavior of the whole run in PerTable mode. -/
theorem c2_aux2 (env : Env) (sel : List (String × List TableInfo))
    (outputDir singlePath : String) (doProjects : Bool) (k c : Nat)
    (hk : readsUpTo sel k = some c) :
    (workerRun env sel 2 outputDir singlePath doProjects (some c)).2.cancelled = true
    ∧ numExports (workerRun env sel 2 outputDir singlePath doProjects (some c)).1 = k
    ∧ (workerRun env sel 2 outputDir singlePath doProjects (some c)).2.exportedProjects = []
    ∧ (workerRun env sel 2 outputDir singlePath doProjects (some c)).1.events
        = progressFrom (numRels sel) 0 ((relLabels sel).take k)
          ++ [Event.finished (workerRun env sel 2 outputDir singlePath doProjects (some c)).2] := by
  obtain ⟨hrb, hcle, hcpos⟩ := readsUpTo_spec sel k c hk
  obtain ⟨ps, pev, pep, pexp, pr1, pr2⟩ := runRelSchemas_cancel c (numRels sel)
    (mode2SchemaInit outputDir) (mode2Body env outputDir)
    (bodyCtl_mode2 env outputDir).1 (bodyExports_mode2 env outputDir).1
    (bodyCtl_mode2 env outputDir).2 (bodyExports_mode2 env outputDir).2
    sel {} (Nat.zero_le c)
  have e0r : ({} : WState).reads = 0 := rfl
  have e0s : ({} : WState).step = 0 := rfl
  have e0e : ({} : WState).events = ([] : List Event) := rfl
  have e0p : ({} : WState).exportedProjects = ([] : List String) := rfl
  have e0x : numExports ({} : WState) = 0 := rfl
  rw [e0r] at ps pev pr1 pr2
  rw [hrb] at ps pev pexp
  rw [e0s] at ps pev
  rw [e0e] at pev
  rw [e0p] at pep
  rw [e0x] at pexp
  simp only [Nat.zero_add, List.nil_append] at ps pev pexp pr1 pr2
  have hcS : c ≤ (runRelSchemas (some c) (numRels sel) (mode2SchemaInit outputDir)
      (mode2Body env outputDir) sel {}).reads := by
    by_cases hfull : relReads sel ≤ c
    · rw [pr1 hfull]; omega
    · have := pr2 (by omega); omega
  have hrel : relPhase env sel 2 outputDir singlePath (some c)
      = runRelSchemas (some c) (numRels sel) (mode2SchemaInit outputDir)
          (mode2Body env outputDir) sel {} := rfl
  have hdoc : docPhase env (some c) (numRels sel) outputDir 2 doProjects
      (runRelSchemas (some c) (numRels sel) (mode2SchemaInit outputDir)
        (mode2Body env outputDir) sel {})
      = if doProjects then
          { runRelSchemas (some c) (numRels sel) (mode2SchemaInit outputDir)
              (mode2Body env outputDir) sel {} with
            reads := (runRelSchemas (some c) (numRels sel) (mode2SchemaInit outputDir)
              (mode2Body env outputDir) sel {}).reads + 1 }
        else runRelSchemas (some c) (numRels sel) (mode2SchemaInit outputDir)
          (mode2Body env outputDir) sel {} := by
    have hflag : flagOf (some c) (runRelSchemas (some c) (numRels sel)
        (mode2SchemaInit outputDir) (mode2Body env outputDir) sel {}).reads = true := by
      simp only [flagOf]
      simp
      omega
    by_cases hdp : doProjects
    · simp only [docPhase, hdp, if_true, hflag]
    · simp only [docPhase, hdp, Bool.false_eq_true, if_false]
  have hw : workerRun env sel 2 outputDir singlePath doProjects (some c)
      = emitResult 2 (numRels sel) (some c)
          (docPhase env (some c) (numRels sel) outputDir 2 doProjects
            (relPhase env sel 2 outputDir singlePath (some c))) := rfl
  rw [hw, hrel, hdoc]
  by_cases hdp : doProjects
  · simp only [hdp, if_true]
    simp only [emitResult]
    refine ⟨?_, ?_, ?_, ?_⟩
    · simp only [flagOf]
      simp
      omega
    · simp only [numExports, exportsOf] at pexp ⊢
      simpa using pexp
    · simpa using pep
    · simp [pev]
  · simp only [hdp, Bool.false_eq_true, if_false]
    simp only [emitResult]
    refine ⟨?_, ?_, ?_, ?_⟩
    · simp only [flagOf]
      simp
      omega
    · simp only [numExports, exportsOf] at pexp ⊢
      simpa using pexp
    · simpa using pep
    · simp [pev]

/-- When the relation phase ends with the flag already past its flip point,
the projects phase is skipped entirely and the final emission reports
`cancelled = true`, appending exactly the one result notification. -/
theorem emit_doc_cancelled (env : Env) (c total : Nat) (outputDir : String)
    (mode : Nat) (doProjects : Bool) (stRel : WState) (h : c ≤ stRel.reads) :
    (emitResult mode total (some c)
        (docPhase env (some c) total outputDir mode doProjects stRel)).2.cancelled = true
    ∧ (emitResult mode total (some c)
        (docPhase env (some c) total outputDir mode doProjects stRel)).1.events
        = stRel.events ++ [Event.finished (emitResult mode total (some c)
            (docPhase env (some c) total outputDir mode doProjects stRel)).2]
    ∧ numExports (emitResult mode total (some c)
        (docPhase env (some c) total outputDir mode doProjects stRel)).1 = numExports stRel
    ∧ (emitResult mode total (some c)
        (docPhase env (some c) total outputDir mode doProjects stRel)).2.exportedProjects
        = stRel.exportedProjects := by
  have hflag : flagOf (some c) stRel.reads = true := by
    simp [flagOf]
    omega
  have hdoc : docPhase env (some c) total outputDir mode doProjects stRel
      = if doProjects then { stRel with reads := stRel.reads + 1 } else stRel := by
    by_cases hdp : doProjects
    · simp only [docPhase, hdp, if_true, hflag]
    · simp only [docPhase, hdp, Bool.false_eq_true, if_false]
  rw [hdoc]
  by_cases hdp : doProjects
  · simp only [hdp, if_true, emitResult]
    refine ⟨?_, by simp, by simp [numExports, exportsOf], by simp⟩
    simp [flagOf]
    omega
  · simp only [hdp, Bool.false_eq_true, if_false, emitResult]
    refine ⟨?_, by simp, by simp [numExports, exportsOf], by simp⟩
    simp [flagOf]
    omega

/-- Cancellation behavior of the whole run in PerSchema mode. -/
theorem c2_aux0 (env : Env) (sel : List (String × List TableInfo))
    (outputDir singlePath : String) (doProjects : Bool) (k c : Nat)
    (hk : readsUpTo sel k = some c) :
    (workerRun env sel 0 outputDir singlePath doProjects (some c)).2.cancelled = true
    ∧ numExports (workerRun env sel 0 outputDir singlePath doProjects (some c)).1 = k
    ∧ (workerRun env sel 0 outputDir singlePath doProjects (some c)).2.exportedProjects = []
    ∧ (workerRun env sel 0 outputDir singlePath doProjects (some c)).1.events
        = progressFrom (numRels sel) 0 ((relLabels sel).take k)
          ++ [Event.finished (workerRun env sel 0 outputDir singlePath doProjects (some c)).2] := by
  obtain ⟨hrb, hcle, hcpos⟩ := readsUpTo_spec sel k c hk
  obtain ⟨ps, pev, pep, pexp, pr1, pr2⟩ := runRelSchemas_cancel c (numRels sel)
    (mode0SchemaInit env outputDir) (mode0Body env outputDir)
    (bodyCtl_mode0 env outputDir).1 (bodyExports_mode0 env outputDir).1
    (bodyCtl_mode0 env outputDir).2 (bodyExports_mode0 env outputDir).2
    sel {} (Nat.zero_le c)
  have e0r : ({} : WState).reads = 0 := rfl
  have e0e : ({} : WState).events = ([] : List Event) := rfl
  have e0p : ({} : WState).exportedProjects = ([] : List String) := rfl
  have e0x : numExports ({} : WState) = 0 := rfl
  rw [e0r] at pev pr1 pr2
  rw [hrb] at pev pexp
  rw [show ({} : WState).step = 0 from rfl] at pev
  rw [e0e] at pev
  rw [e0p] at pep
  rw [e0x] at pexp
  simp only [Nat.zero_add, List.nil_append] at pev pexp pr1 pr2
  have hcS : c ≤ (runRelSchemas (some c) (numRels sel) (mode0SchemaInit env outputDir)
      (mode0Body env outputDir) sel {}).reads := by
    by_cases hfull : relReads sel ≤ c
    · rw [pr1 hfull]; omega
    · have := pr2 (by omega); omega
  have hw : workerRun env sel 0 outputDir singlePath doProjects (some c)
      = emitResult 0 (numRels sel) (some c)
          (docPhase env (some c) (numRels sel) outputDir 0 doProjects
            (relPhase env sel 0 outputDir singlePath (some c))) := rfl
  obtain ⟨f1, f2, f3, f4⟩ := emit_doc_cancelled env c (numRels sel) outputDir 0 doProjects
    (relPhase env sel 0 outputDir singlePath (some c)) hcS
  rw [hw]
  refine ⟨f1, ?_, ?_, ?_⟩
  · rw [f3]
    exact pexp
  · rw [f4]
    exact pep
  · rw [f2]
    rw [show (relPhase env sel 0 outputDir singlePath (some c)).events
        = (runRelSchemas (some c) (numRels sel) (mode0SchemaInit env outputDir)
            (mode0Body env outputDir) sel {}).events from rfl]
    rw [pev]

/-- Cancellation behavior of the whole run in Single mode. -/
theorem c2_aux1 (env : Env) (sel : List (String × List TableInfo))
    (outputDir singlePath : String) (doProjects : Bool) (k c : Nat)
    (hk : readsUpTo sel k = some c) :
    (workerRun env sel 1 outputDir singlePath doProjects (some c)).2.cancelled = true
    ∧ numExports (workerRun env sel 1 outputDir singlePath doProjects (some c)).1 = k
    ∧ (workerRun env sel 1 outputDir singlePath doProjects (some c)).2.exportedProjects = []
    ∧ (workerRun env sel 1 outputDir singlePath doProjects (some c)).1.events
        = progressFrom (numRels sel) 0 ((relLabels sel).take k)
          ++ [Event.finished (workerRun env sel 1 outputDir singlePath doProjects (some c)).2] := by
  obtain ⟨hrb, hcle, hcpos⟩ := readsUpTo_spec sel k c hk
  obtain ⟨ps, pev, pep, pexp, pr1, pr2⟩ := runRelSchemas_cancel c (numRels sel)
    (mode1SchemaInit singlePath)
    (mode1Body env singlePath (decide (1 < (sel.map (fun x => x.1)).length)))
    (bodyCtl_mode1 env singlePath (decide (1 < (sel.map (fun x => x.1)).length))).1
    (bodyExports_mode1 env singlePath (decide (1 < (sel.map (fun x => x.1)).length))).1
    (bodyCtl_mode1 env singlePath (decide (1 < (sel.map (fun x => x.1)).length))).2
    (bodyExports_mode1 env singlePath (decide (1 < (sel.map (fun x => x.1)).length))).2
    sel (mode1InitState env sel singlePath) (Nat.zero_le c)
  have e1r : (mode1InitState env sel singlePath).reads = 0 := rfl
  have e1s : (mode1InitState env sel singlePath).step = 0 := rfl
  have e1e : (mode1InitState env sel singlePath).events = ([] : List Event) := rfl
  have e1p : (mode1InitState env sel singlePath).exportedProjects = ([] : List String) := rfl
  have e1x : numExports (mode1InitState env sel singlePath) = 0 := by
    simp only [numExports, exportsOf, mode1InitState]
    split_ifs <;> simp [isExportA]
  rw [e1r] at ps pev pexp pr1 pr2
  rw [hrb] at pev pexp
  rw [e1s, e1e] at pev
  rw [e1p] at pep
  rw [e1x] at pexp
  simp only [Nat.zero_add, List.nil_append] at pev pexp pr1 pr2
  have hcS : c ≤ (runRelSchemas (some c) (numRels sel) (mode1SchemaInit singlePath)
      (mode1Body env singlePath (decide (1 < (sel.map (fun x => x.1)).length))) sel
      (mode1InitState env sel singlePath)).reads := by
    by_cases hfull : relReads sel ≤ c
    · rw [pr1 hfull]; omega
    · have := pr2 (by omega); omega
  have hw : workerRun env sel 1 outputDir singlePath doProjects (some c)
      = emitResult 1 (numRels sel) (some c)
          (docPhase env (some c) (numRels sel) outputDir 1 doProjects
            (relPhase env sel 1 outputDir singlePath (some c))) := rfl
  have hcrel : c ≤ (relPhase env sel 1 outputDir singlePath (some c)).reads := hcS
  obtain ⟨f1, f2, f3, f4⟩ := emit_doc_cancelled env c (numRels sel) outputDir 1 doProjects
    (relPhase env sel 1 outputDir singlePath (some c)) hcrel
  rw [hw]
  refine ⟨f1, ?_, ?_, ?_⟩
  · rw [f3]
    exact pexp
  · rw [f4]
    exact pep
  · rw [f2]
    exact congrArg (fun l => l ++ _) pev

/-- C2 (src/export_engine.py lines 245-246, 261-273, 358, 410): if
`request_cancel` takes effect right after relation `k` of the selection has
been processed (`readsUpTo sel k = some c` fixes the flag-flip read index),
then for every layout mode the emitted result has `cancelled = true`, exactly
`k` writer calls were made (so at most `k + 1` relations attempted, and no
new per-relation export starts after the flag is observed), the
document-export phase is not executed at all (no exported projects, and the
notification trace consists of exactly the `k` relation progress
notifications followed by the single result notification). -/
theorem c2_cancellation (env : Env) (sel : List (String × List TableInfo)) (mode : Nat)
    (outputDir singlePath : String) (doProjects : Bool) (k c : Nat)
    (hm : mode ≤ 2) (hk : readsUpTo sel k = some c) :
    (workerRun env sel mode outputDir singlePath doProjects (some c)).2.cancelled = true
    ∧ numExports (workerRun env sel mode outputDir singlePath doProjects (some c)).1 = k
    ∧ (workerRun env sel mode outputDir singlePath doProjects (some c)).2.exportedProjects = []
    ∧ (workerRun env sel mode outputDir singlePath doProjects (some c)).1.events
        = progressFrom (numRels sel) 0 ((relLabels sel).take k)
          ++ [Event.finished (workerRun env sel mode outputDir singlePath doProjects (some c)).2]
    ∧ k ≤ numRels sel := by
  have hkc := readsUpTo_spec sel k c hk
  have hle : k ≤ numRels sel := by
    have := relsBefore_le c sel 0
    omega
  interval_cases mode
  · obtain ⟨h1, h2, h3, h4⟩ := c2_aux0 env sel outputDir singlePath doProjects k c hk
    exact ⟨h1, h2, h3, h4, hle⟩
  · obtain ⟨h1, h2, h3, h4⟩ := c2_aux1 env sel outputDir singlePath doProjects k c hk
    exact ⟨h1, h2, h3, h4, hle⟩
  · obtain ⟨h1, h2, h3, h4⟩ := c2_aux2 env sel outputDir singlePath doProjects k c hk
    exact ⟨h1, h2, h3, h4, hle⟩

/-- Witness for `c2_cancellation`: a three-relation selection cancelled right
after the first relation, in PerSchema mode with document export requested. -/
theorem c2_cancellation_witness :
    (workerRun envOkFixture [("a", [{ table := "t1" }, { table := "t2" }]),
        ("b", [{ table := "t3" }])] 0 "/o" "" true (some 2)).2.cancelled = true
    ∧ numExports (workerRun envOkFixture [("a", [{ table := "t1" }, { table := "t2" }]),
        ("b", [{ table := "t3" }])] 0 "/o" "" true (some 2)).1 = 1
    ∧ (workerRun envOkFixture [("a", [{ table := "t1" }, { table := "t2" }]),
        ("b", [{ table := "t3" }])] 0 "/o" "" true (some 2)).2.exportedProjects = [] := by
  obtain ⟨h1, h2, h3, _, _⟩ := c2_cancellation envOkFixture
    [("a", [{ table := "t1" }, { table := "t2" }]), ("b", [{ table := "t3" }])] 0 "/o" ""
    true 1 2 (by decide) (by decide)
  exact ⟨h1, h2, h3⟩

/-- The final emission appends exactly one result notification to the trace. -/
theorem emitResult_events (mode total : Nat) (cancel : Option Nat) (st : WState) :
    (emitResult mode total cancel st).1.events
      = st.events ++ [Event.finished (emitResult mode total cancel st).2] := rfl

/-- With document export disabled, the projects phase is the identity. -/
theorem docPhase_disabled (env : Env) (cancel : Option Nat) (total : Nat)
    (outputDir : String) (mode : Nat) (st : WState) :
    docPhase env cancel total outputDir mode false st = st := rfl

/-- The notification trace of the relation phase: for every layout mode and
every cancellation point, some prefix of `m ≤ N` relation labels is emitted
with step indices `1..m`; with no cancellation `m = N`. -/
theorem relPhase_events (env : Env) (sel : List (String × List TableInfo)) (mode : Nat)
    (outputDir singlePath : String) (cancel : Option Nat) (hm : mode ≤ 2) :
    ∃ m, m ≤ numRels sel
      ∧ (relPhase env sel mode outputDir singlePath cancel).events
          = progressFrom (numRels sel) 0 ((relLabels sel).take m)
      ∧ (cancel = none → m = numRels sel) := by
  have htake : (relLabels sel).take (numRels sel) = relLabels sel := by
    rw [← relLabels_length, List.take_length]
  interval_cases mode
  · cases cancel with
    | none =>
      obtain ⟨_, _, pev, _, _⟩ := runRelSchemas_none (numRels sel)
        (mode0SchemaInit env outputDir) (mode0Body env outputDir)
        (bodyCtl_mode0 env outputDir).1 (bodyExports_mode0 env outputDir).1
        (bodyCtl_mode0 env outputDir).2 (bodyExports_mode0 env outputDir).2
        sel {}
      refine ⟨numRels sel, Nat.le_refl _, ?_, fun _ => rfl⟩
      rw [show (relPhase env sel 0 outputDir singlePath none).events
          = (runRelSchemas none (numRels sel) (mode0SchemaInit env outputDir)
              (mode0Body env outputDir) sel {}).events from rfl]
      rw [pev, htake]
      rfl
    | some c =>
      obtain ⟨_, pev, _, _, _, _⟩ := runRelSchemas_cancel c (numRels sel)
        (mode0SchemaInit env outputDir) (mode0Body env outputDir)
        (bodyCtl_mode0 env outputDir).1 (bodyExports_mode0 env outputDir).1
        (bodyCtl_mode0 env outputDir).2 (bodyExports_mode0 env outputDir).2
        sel {} (Nat.zero_le c)
      refine ⟨relsBefore c sel 0, by have := relsBefore_le c sel 0; omega, ?_,
        fun hx => by cases hx⟩
      rw [show (relPhase env sel 0 outputDir singlePath (some c)).events
          = (runRelSchemas (some c) (numRels sel) (mode0SchemaInit env outputDir)
              (mode0Body env outputDir) sel {}).events from rfl]
      rw [pev]
      rfl
  · cases cancel with
    | none =>
      obtain ⟨_, _, pev, _, _⟩ := runRelSchemas_none (numRels sel)
        (mode1SchemaInit singlePath)
        (mode1Body env singlePath (decide (1 < (sel.map (fun x => x.1)).length)))
        (bodyCtl_mode1 env singlePath (decide (1 < (sel.map (fun x => x.1)).length))).1
        (bodyExports_mode1 env singlePath (decide (1 < (sel.map (fun x => x.1)).length))).1
        (bodyCtl_mode1 env singlePath (decide (1 < (sel.map (fun x => x.1)).length))).2
        (bodyExports_mode1 env singlePath (decide (1 < (sel.map (fun x => x.1)).length))).2
        sel (mode1InitState env sel singlePath)
      refine ⟨numRels sel, Nat.le_refl _, ?_, fun _ => rfl⟩
      rw [show (relPhase env sel 1 outputDir singlePath none).events
          = (runRelSchemas none (numRels sel) (mode1SchemaInit singlePath)
              (mode1Body env singlePath (decide (1 < (sel.map (fun x => x.1)).length)))
              sel (mode1InitState env sel singlePath)).events from rfl]
      rw [pev, htake]
      rfl
    | some c =>
      obtain ⟨_, pev, _, _, _, _⟩ := runRelSchemas_cancel c (numRels sel)
        (mode1SchemaInit singlePath)
        (mode1Body env singlePath (decide (1 < (sel.map (fun x => x.1)).length)))
        (bodyCtl_mode1 env singlePath (decide (1 < (sel.map (fun x => x.1)).length))).1
        (bodyExports_mode1 env singlePath (decide (1 < (sel.map (fun x => x.1)).length))).1
        (bodyCtl_mode1 env singlePath (decide (1 < (sel.map (fun x => x.1)).length))).2
        (bodyExports_mode1 env singlePath (decide (1 < (sel.map (fun x => x.1)).length))).2
        sel (mode1InitState env sel singlePath) (Nat.zero_le c)
      refine ⟨relsBefore c sel 0, by have := relsBefore_le c sel 0; omega, ?_,
        fun hx => by cases hx⟩
      rw [show (relPhase env sel 1 outputDir singlePath (some c)).events
          = (runRelSchemas (some c) (numRels sel) (mode1SchemaInit singlePath)
              (mode1Body env singlePath (decide (1 < (sel.map (fun x => x.1)).length)))
              sel (mode1InitState env sel singlePath)).events from rfl]
      rw [pev]
      rfl
  · cases cancel with
    | none =>
      obtain ⟨_, _, pev, _, _⟩ := runRelSchemas_none (numRels sel)
        (mode2SchemaInit outputDir) (mode2Body env outputDir)
        (bodyCtl_mode2 env outputDir).1 (bodyExports_mode2 env outputDir).1
        (bodyCtl_mode2 env outputDir).2 (bodyExports_mode2 env outputDir).2
        sel {}
      refine ⟨numRels sel, Nat.le_refl _, ?_, fun _ => rfl⟩
      rw [show (relPhase env sel 2 outputDir singlePath none).events
          = (runRelSchemas none (numRels sel) (mode2SchemaInit outputDir)
              (mode2Body env outputDir) sel {}).events from rfl]
      rw [pev, htake]
      rfl
    | some c =>
      obtain ⟨_, pev, _, _, _, _⟩ := runRelSchemas_cancel c (numRels sel)
        (mode2SchemaInit outputDir) (mode2Body env outputDir)
        (bodyCtl_mode2 env outputDir).1 (bodyExports_mode2 env outputDir).1
        (bodyCtl_mode2 env outputDir).2 (bodyExports_mode2 env outputDir).2
        sel {} (Nat.zero_le c)
      refine ⟨relsBefore c sel 0, by have := relsBefore_le c sel 0; omega, ?_,
        fun hx => by cases hx⟩
      rw [show (relPhase env sel 2 outputDir singlePath (some c)).events
          = (runRelSchemas (some c) (numRels sel) (mode2SchemaInit outputDir)
              (mode2Body env outputDir) sel {}).events from rfl]
      rw [pev]
      rfl

/-- C1 counterexample (src/export_engine.py lines 357-373): with document
export enabled, a run over a single relation emits two progress
notifications (the relation's and the `"QGIS projects..."` one, the latter
repeating step index 1) before the result — not exactly `N = 1`. -/
theorem c1_counterexample :
    numRels selFixture = 1
    ∧ (workerRun envOkFixture selFixture 0 "/o" "" true none).1.events
      = [Event.progress 1 1 "s.t", Event.progress 1 1 "QGIS projects...",
         Event.finished
           { okCount := 1, errors := ["Projects: connection error"], gpkgCount := 1,
             exportedProjects := [], mode := 0, total := 1, cancelled := false }]
    ∧ (workerRun envOkFixture selFixture 0 "/o" "" true none).1.events.countP
        (fun e => match e with
          | Event.progress _ _ _ => true
          | Event.finished _ => false)
      ≠ numRels selFixture := by
  refine ⟨rfl, ?_, ?_⟩ <;> decide

/-- C1 amended (src/export_engine.py lines 271-276, 357-373, 403-411): when
document export is disabled, for every layout mode the notification trace is
exactly `m` progress notifications with strictly increasing step indices
`1..m` — the first `m` relation labels in processing order — followed by the
single result notification, where `m ≤ N` and `m = N` whenever the run is
not cancelled.  (When document export is enabled the code emits additional
progress notifications with a repeated step index, which is what the
counterexample records.) -/
theorem c1_progress_amended (env : Env) (sel : List (String × List TableInfo))
    (mode : Nat) (outputDir singlePath : String) (cancel : Option Nat) (hm : mode ≤ 2) :
    ∃ m, m ≤ numRels sel
      ∧ (workerRun env sel mode outputDir singlePath false cancel).1.events
          = progressFrom (numRels sel) 0 ((relLabels sel).take m)
            ++ [Event.finished (workerRun env sel mode outputDir singlePath false cancel).2]
      ∧ (cancel = none → m = numRels sel) := by
  obtain ⟨m, hle, hev, hnone⟩ := relPhase_events env sel mode outputDir singlePath cancel hm
  refine ⟨m, hle, ?_, hnone⟩
  have hw : workerRun env sel mode outputDir singlePath false cancel
      = emitResult mode (numRels sel) cancel
          (docPhase env cancel (numRels sel) outputDir mode false
            (relPhase env sel mode outputDir singlePath cancel)) := rfl
  rw [hw, docPhase_disabled, emitResult_events, hev]

/-- Witness for `c1_progress_amended`: an uncancelled two-relation PerSchema
run with document export disabled emits exactly the two relation progress
notifications with steps 1, 2 and then the result. -/
theorem c1_progress_amended_witness :
    ∃ m, m ≤ numRels [("s", [({ table := "t1" } : TableInfo), { table := "t2" }])]
      ∧ (workerRun envOkFixture [("s", [{ table := "t1" }, { table := "t2" }])]
          0 "/o" "" false none).1.events
        = progressFrom (numRels [("s", [({ table := "t1" } : TableInfo), { table := "t2" }])]) 0
            ((relLabels [("s", [({ table := "t1" } : TableInfo), { table := "t2" }])]).take m)
          ++ [Event.finished (workerRun envOkFixture
              [("s", [{ table := "t1" }, { table := "t2" }])] 0 "/o" "" false none).2]
      ∧ ((none : Option Nat) = none →
          m = numRels [("s", [({ table := "t1" } : TableInfo), { table := "t2" }])]) :=
  c1_progress_amended envOkFixture [("s", [{ table := "t1" }, { table := "t2" }])]
    0 "/o" "" none (by decide)

/-- The projects phase never adds writer calls, never adds non-write actions,
and never changes the container count. -/
theorem docPhase_keeps (env : Env) (cancel : Option Nat) (total : Nat)
    (outputDir : String) (mode : Nat) (doProjects : Bool) (st : WState) :
    (docPhase env cancel total outputDir mode doProjects st).actions.filter isExportA
        = st.actions.filter isExportA
    ∧ (docPhase env cancel total outputDir mode doProjects st).actions.filter notWriteA
        = st.actions.filter notWriteA
    ∧ (docPhase env cancel total outputDir mode doProjects st).gpkgCount = st.gpkgCount := by
  simp only [docPhase]
  by_cases hdp : doProjects
  · simp only [hdp, if_true]
    by_cases hc : flagOf cancel st.reads = true
    · simp [hc]
    · simp only [Bool.not_eq_true] at hc
      simp only [hc, Bool.false_eq_true, if_false]
      cases hpc : env.projectsConn with
      | none => exact ⟨rfl, rfl, rfl⟩
      | some projects =>
        obtain ⟨h1, h2, h3⟩ := runProjects_keeps env cancel total outputDir mode projects
          { st with
            reads := st.reads + 1,
            events := st.events ++ [Event.progress st.step total "QGIS projects..."] }
        exact ⟨h2, h1, h3⟩
  · simp [hdp]

/-- C6 (src/export_engine.py lines 292-315): in Single mode, every writer
call targets the single container path, with the layer name override
`<schema>__<table>` when the selection spans more than one schema, and the
bare table name when it spans exactly one. -/
theorem c6_single_mode_layer_names (env : Env) (sel : List (String × List TableInfo))
    (outputDir singlePath : String) (doProjects : Bool) :
    (1 < sel.length →
      ∀ s t p ln, FsAction.exportCall s t p ln
          ∈ (workerRun env sel 1 outputDir singlePath doProjects none).1.actions →
        ln = some (s ++ "__" ++ t) ∧ p = singlePath)
    ∧ (sel.length = 1 →
      ∀ s t p ln, FsAction.exportCall s t p ln
          ∈ (workerRun env sel 1 outputDir singlePath doProjects none).1.actions →
        ln = some t ∧ p = singlePath) := by
  have hw : (workerRun env sel 1 outputDir singlePath doProjects none).1.actions
      = (docPhase env none (numRels sel) outputDir 1 doProjects
          (relPhase env sel 1 outputDir singlePath none)).actions := rfl
  obtain ⟨hf1, _, _⟩ := docPhase_keeps env none (numRels sel) outputDir 1 doProjects
    (relPhase env sel 1 outputDir singlePath none)
  have hrel : (relPhase env sel 1 outputDir singlePath none).actions
      = (runRelSchemas none (numRels sel) (mode1SchemaInit singlePath)
          (mode1Body env singlePath (decide (1 < (sel.map (fun x => x.1)).length)))
          sel (mode1InitState env sel singlePath)).actions := rfl
  have hacts := mode1_schemas_actions env singlePath
    (decide (1 < (sel.map (fun x => x.1)).length)) (numRels sel) sel
    (mode1InitState env sel singlePath)
  have hmem : ∀ s t p ln, FsAction.exportCall s t p ln
      ∈ (workerRun env sel 1 outputDir singlePath doProjects none).1.actions →
      ∃ x ∈ sel, ∃ tt ∈ x.2, FsAction.exportCall s t p ln
        = FsAction.exportCall x.1 tt.table singlePath
            (some (if decide (1 < (sel.map (fun x => x.1)).length) = true
              then x.1 ++ "__" ++ tt.table else tt.table)) := by
    intro s t p ln hin
    have hin2 : FsAction.exportCall s t p ln
        ∈ (workerRun env sel 1 outputDir singlePath doProjects none).1.actions.filter
          isExportA := by
      rw [List.mem_filter]
      exact ⟨hin, rfl⟩
    rw [hw, hf1, hrel, hacts] at hin2
    rw [List.filter_append] at hin2
    have hinit : (mode1InitState env sel singlePath).actions.filter isExportA = [] := by
      simp only [mode1InitState]
      split_ifs <;> simp [isExportA]
    rw [hinit, List.nil_append] at hin2
    have hin3 := (List.mem_filter.mp hin2).1
    simp only [List.mem_flatMap, List.mem_map] at hin3
    obtain ⟨x, hx, tt, htt, heq⟩ := hin3
    exact ⟨x, hx, tt, htt, heq.symm⟩
  have hlen : (sel.map (fun x => x.1)).length = sel.length := by simp
  constructor
  · intro hmulti s t p ln hin
    obtain ⟨x, hx, tt, htt, heq⟩ := hmem s t p ln hin
    have hdec : decide (1 < (sel.map (fun x => x.1)).length) = true := by
      rw [hlen]
      simpa using hmulti
    rw [hdec] at heq
    simp only [FsAction.exportCall.injEq, if_true] at heq
    obtain ⟨h1, h2, h3, h4⟩ := heq
    subst h1
    subst h2
    exact ⟨h4, h3⟩
  · intro hone s t p ln hin
    obtain ⟨x, hx, tt, htt, heq⟩ := hmem s t p ln hin
    have hdec : decide (1 < (sel.map (fun x => x.1)).length) = false := by
      rw [hlen, hone]
      decide
    rw [hdec] at heq
    simp only [FsAction.exportCall.injEq, Bool.false_eq_true, if_false] at heq
    obtain ⟨h1, h2, h3, h4⟩ := heq
    subst h1
    subst h2
    exact ⟨h4, h3⟩

/-- Witness for `c6_single_mode_layer_names`: two-schema and one-schema Single
runs; the writer call of schema `a`, table `t1` carries the prefixed layer
name in the first and the bare name in the second. -/
theorem c6_single_mode_layer_names_witness :
    (FsAction.exportCall "a" "t1" "/s.gpkg" (some "a__t1")
      ∈ (workerRun envOkFixture [("a", [{ table := "t1" }]), ("b", [{ table := "t2" }])]
          1 "/o" "/s.gpkg" false none).1.actions
      → (some "a__t1" : Option String) = some ("a" ++ "__" ++ "t1")
        ∧ "/s.gpkg" = "/s.gpkg")
    ∧ (FsAction.exportCall "a" "t1" "/s.gpkg" (some "t1")
      ∈ (workerRun envOkFixture [("a", [{ table := "t1" }])]
          1 "/o" "/s.gpkg" false none).1.actions
      → (some "t1" : Option String) = some "t1" ∧ "/s.gpkg" = "/s.gpkg") := by
  constructor
  · exact (c6_single_mode_layer_names envOkFixture
      [("a", [{ table := "t1" }]), ("b", [{ table := "t2" }])] "/o" "/s.gpkg" false).1
      (by decide) "a" "t1" "/s.gpkg" (some "a__t1")
  · exact (c6_single_mode_layer_names envOkFixture [("a", [{ table := "t1" }])]
      "/o" "/s.gpkg" false).2 (by decide) "a" "t1" "/s.gpkg" (some "t1")

/-- C7 counterexample (src/export_engine.py lines 345-351): in PerTable mode
`gpkg_count` is incremented only on writer success, so a run whose single
relation export fails reports 0 containers for 1 relation. -/
theorem c7_counterexample :
    numRels selFixture = 1
    ∧ (workerRun envFailFixture selFixture 2 "/o" "" false none).2.gpkgCount = 0
    ∧ (workerRun envFailFixture selFixture 2 "/o" "" false none).2.gpkgCount
        ≠ numRels selFixture := by
  refine ⟨rfl, ?_, ?_⟩ <;> decide

/-- C7 amended (src/export_engine.py lines 327-355): in PerTable mode, for
every non-cancelled run in which every writer call succeeds the reported
container count equals the number of relations in the selection; the
non-write side effects of the run are, per schema, the creation of the
schema subdirectory followed per table by the deletion of a pre-existing
file at `<outputDirectory>/<schema>/<table>.gpkg` (exactly when one
pre-exists) immediately followed by the writer call for that exact path. -/
theorem c7_pertable_amended (env : Env) (sel : List (String × List TableInfo))
    (outputDir singlePath : String) (doProjects : Bool)
    (hok : ∀ s t p ln, (env.exportOk s t p ln).1 = true) :
    (workerRun env sel 2 outputDir singlePath doProjects none).2.gpkgCount = numRels sel
    ∧ (workerRun env sel 2 outputDir singlePath doProjects none).1.actions.filter notWriteA
        = sel.flatMap (fun x =>
            FsAction.mkdirP (joinPath outputDir x.1) :: x.2.flatMap (fun t =>
              (if env.preExists (joinPath (joinPath outputDir x.1) (t.table ++ ".gpkg"))
                then [FsAction.deleteFile (joinPath (joinPath outputDir x.1) (t.table ++ ".gpkg"))]
                else [])
              ++ [FsAction.exportCall x.1 t.table
                  (joinPath (joinPath outputDir x.1) (t.table ++ ".gpkg")) none])) := by
  obtain ⟨hacts, hgpkg⟩ := mode2_schemas_run env outputDir (numRels sel) sel ({} : WState)
  have hrelact : (relPhase env sel 2 outputDir singlePath none).actions
      = (runRelSchemas none (numRels sel) (mode2SchemaInit outputDir)
          (mode2Body env outputDir) sel {}).actions := rfl
  have hrelgpkg : (relPhase env sel 2 outputDir singlePath none).gpkgCount
      = (runRelSchemas none (numRels sel) (mode2SchemaInit outputDir)
          (mode2Body env outputDir) sel {}).gpkgCount := rfl
  obtain ⟨hd1, hd2, hd3⟩ := docPhase_keeps env none (numRels sel) outputDir 2 doProjects
    (relPhase env sel 2 outputDir singlePath none)
  constructor
  · have hw : (workerRun env sel 2 outputDir singlePath doProjects none).2.gpkgCount
        = (docPhase env none (numRels sel) outputDir 2 doProjects
            (relPhase env sel 2 outputDir singlePath none)).gpkgCount := rfl
    rw [hw, hd3, hrelgpkg, hgpkg hok]
    simp
  · have hw : (workerRun env sel 2 outputDir singlePath doProjects none).1.actions
        = (docPhase env none (numRels sel) outputDir 2 doProjects
            (relPhase env sel 2 outputDir singlePath none)).actions := rfl
    rw [hw, hd2, hrelact, hacts]
    rw [show ({} : WState).actions = ([] : List FsAction) from rfl, List.nil_append]
    rw [List.filter_eq_self]
    intro a ha
    simp only [List.mem_flatMap, List.mem_cons, List.mem_append] at ha
    obtain ⟨x, hxmem, hx⟩ := ha
    rcases hx with hmk | hrest
    · subst hmk
      rfl
    · obtain ⟨t, htmem, hin⟩ := hrest
      rcases hin with hdel | hexp
      · by_cases hpe : env.preExists (joinPath (joinPath outputDir x.1) (t.table ++ ".gpkg"))
          = true
        · rw [if_pos hpe] at hdel
          simp only [List.mem_singleton] at hdel
          subst hdel
          rfl
        · rw [if_neg hpe] at hdel
          simp at hdel
      · rcases hexp with hexp | hexp
        · subst hexp
          rfl
        · simp at hexp

/-- Witness for `c7_pertable_amended`: a two-relation selection with an
always-succeeding writer and one pre-existing container file. -/
theorem c7_pertable_amended_witness :
    (workerRun { envOkFixture with preExists := fun p => p = "/o/s/t1.gpkg" }
        [("s", [{ table := "t1" }, { table := "t2" }])] 2 "/o" "" false none).2.gpkgCount
      = numRels [("s", [({ table := "t1" } : TableInfo), { table := "t2" }])]
    ∧ (workerRun { envOkFixture with preExists := fun p => p = "/o/s/t1.gpkg" }
        [("s", [{ table := "t1" }, { table := "t2" }])] 2 "/o" "" false
        none).1.actions.filter notWriteA
      = [FsAction.mkdirP "/o/s", FsAction.deleteFile "/o/s/t1.gpkg",
         FsAction.exportCall "s" "t1" "/o/s/t1.gpkg" none,
         FsAction.exportCall "s" "t2" "/o/s/t2.gpkg" none] := by
  obtain ⟨h1, h2⟩ := c7_pertable_amended
    { envOkFixture with preExists := fun p => p = "/o/s/t1.gpkg" }
    [("s", [{ table := "t1" }, { table := "t2" }])] "/o" "" false
    (fun _ _ _ _ => rfl)
  refine ⟨h1, ?_⟩
  rw [h2]
  decide
